import Mathlib

/-!
Verification of the ParDatabase core (SurpriseDog/ParDatabase).

This file gives a shallow embedding, in Lean 4, of the parts of the
repository that the checked properties talk about:

* `hexbase.py`  — `hash_cmp`, `HexBase.load` / `save` / `clean` / `locate` /
  `put` / `get` / `get_hash` / `verify`;
* `hash.py`     — the streaming `get_hash`;
* `database.py` — `Database.load` / `save` / `scan` / `cleaner` / `verify` /
  `gen_hashes` / `gen_pars` / `generate`;
* `sd/rotate.py` — the backup-rotation name sequence.

Python dictionaries are modelled as association lists with unique keys,
float timestamps as rationals, file contents and digests as strings, and
the filesystem as explicit oracle functions (existence, mtime, size, read
outcomes) passed to each operation.  Fallible operations return `Option`
(`none` = an uncaught Python exception on that path).
-/

namespace ParDatabase

set_option maxRecDepth 16384

/-- Association-list lookup, mirroring Python `dict[key]` access. -/
def alookup {α β : Type} [DecidableEq α] (k : α) : List (α × β) → Option β
  | [] => none
  | (k', v) :: rest => if k' = k then some v else alookup k rest

/-- Association-list assignment, mirroring Python `dict[key] = value`:
replace in place when the key exists, append otherwise. -/
def aset {α β : Type} [DecidableEq α] (k : α) (v : β) : List (α × β) → List (α × β)
  | [] => [(k, v)]
  | (k', v') :: rest => if k' = k then (k, v) :: rest else (k', v') :: aset k v rest

/-- Association-list deletion, mirroring Python `del dict[key]`. -/
def aerase {α β : Type} [DecidableEq α] (k : α) : List (α × β) → List (α × β)
  | [] => []
  | (k', v) :: rest => if k' = k then aerase k rest else (k', v) :: aerase k rest

/-- `os.path.join` for the relative, slash-free components this program uses. -/
def joinPath (a b : String) : String := a ++ "/" ++ b

/-- Python truthiness of an optional string (`None` and `''` are falsy);
used for the `if not info.hash` tests in `database.py`. -/
def strTruthy : Option String → Bool
  | none => false
  | some s => s ≠ ""

/-- `TRUNCATE` from `hexbase.py` / `hash.py`: hashes are truncated to 64 hex chars. -/
def TRUNCATE : Nat := 64

/-- `MINHASH` from `hexbase.py` / `hash.py`: minimum accepted hash length. -/
def MINHASH : Nat := 16

/-- `BAK_NUM` from `hexbase.py`: number of database backups. -/
def BAK_NUM : Nat := 8

/-- The persisted fields of one `Info` record (`info.py`), as serialised by
`Info.tojson`: relative pathname, digest (possibly `None`), mtime, size. -/
structure RecordJson where
  pathname : String
  hash : Option String
  mtime : ℚ
  size : ℕ
deriving DecidableEq, Repr

/-- An in-memory `Info` object (`info.py`).  `fullpath` and `cwd` are the
derived, non-persisted attributes computed in `Info.__init__`. -/
structure Info where
  pathname : String
  hash : Option String
  mtime : ℚ
  size : ℕ
  fullpath : String
  cwd : String
deriving DecidableEq, Repr

/-- `os.path.dirname` on a slash-separated path. -/
def dirname (s : String) : String :=
  match s.revPosOf '/' with
  | none => ""
  | some p => s.extract 0 p

/-- `Info.tojson` (`info.py`): keep only `pathname`, `hash`, `mtime`, `size`. -/
def Info.tojson (i : Info) : RecordJson :=
  { pathname := i.pathname, hash := i.hash, mtime := i.mtime, size := i.size }

/-- `Info(load=d, base=target)` (`info.py`): set the four persisted attributes
from the loaded dict and recompute `fullpath` and `cwd`. -/
def Info.ofJson (d : RecordJson) (base : String) : Info :=
  { pathname := d.pathname, hash := d.hash, mtime := d.mtime, size := d.size,
    fullpath := joinPath base d.pathname, cwd := dirname (joinPath base d.pathname) }

/-- The vault mapping `HexBase.pfiles`: file digest → (artifact name → artifact digest). -/
abbrev Pfiles := List (String × List (String × String))

/-- The `meta` dict written by `HexBase.save`. -/
structure DbMeta where
  mtime : ℚ
  hash : String
  encoding : String
  truncate : ℕ
  version : ℚ
deriving DecidableEq, Repr

/-- The JSON triple `[meta, data, pfiles]` stored in `database.xz`. -/
structure SavedFile where
  meta : DbMeta
  data : List (String × RecordJson)
  pfiles : Pfiles
deriving DecidableEq, Repr

/-- The fields of a `HexBase` object that `load`/`save` exchange with disk. -/
structure HexState where
  pfiles : Pfiles
  hashname : String
  version : ℚ
  last_save : ℚ
deriving DecidableEq, Repr

namespace HexBase

/-- `HexBase.save` (`hexbase.py` 108-137): serialise `[meta, data, pfiles]`
where `data` is the already-JSON-encoded record mapping supplied by the
caller and `now` is `time.time()`. -/
def save (st : HexState) (data : List (String × RecordJson)) (now : ℚ) : SavedFile :=
  { meta := { mtime := now, hash := st.hashname, encoding := "hex",
              truncate := TRUNCATE, version := st.version },
    data := data,
    pfiles := st.pfiles }

/-- The state updates `HexBase.load` (`hexbase.py` 82-105) performs once a
candidate file has parsed into the triple `f`: adopt `data` and `pfiles`,
adopt `meta['hash']` when truthy, adopt the version (migrating anything
below 1.2 up to 1.2), and set `last_save` from `meta['mtime']`. -/
def loadParsed (st : HexState) (f : SavedFile) : HexState :=
  { pfiles := f.pfiles,
    hashname := if f.meta.hash ≠ "" then f.meta.hash else st.hashname,
    version := if f.meta.version < 6/5 then 6/5 else f.meta.version,
    last_save := f.meta.mtime }

end HexBase

namespace Database

/-- `Database.save` (`database.py` 72-77): JSON-encode every record with
`Info.tojson`, then hand the result to `HexBase.save`. -/
def save (files : List (String × Info)) (st : HexState) (now : ℚ) : SavedFile :=
  HexBase.save st (files.map (fun p => (p.1, p.2.tojson))) now

/-- `Database.load` (`database.py` 60-69) after `HexBase.load` has parsed the
file `f`: rebuild every record with `Info(load=info, base=self.target)`. -/
def load (st : HexState) (f : SavedFile) (target : String) :
    List (String × Info) × HexState :=
  (f.data.map (fun p => (p.1, Info.ofJson p.2 target)), HexBase.loadParsed st f)

end Database

/-- `rotate(path, limit, prefix='.', move=False)` (`sd/rotate.py` 7-43) only
computes the candidate name sequence `[root++ext, root.1++ext, …, root.N++ext]`
(newest first: the primary, then ever older backups).  `root`/`ext` are the
two halves produced by `os.path.splitext`. -/
def rotateNames (root ext : String) (limit : ℕ) : List String :=
  (root ++ ext) :: (List.range limit).map (fun num => root ++ "." ++ toString (num + 1) ++ ext)

/-- The exception classes that the body of the `try` at `hexbase.py` 80-88
can raise while opening, decompressing and decoding one candidate.
`osError`, `valueError` and `eofError` are the classes named by the
`except` clause at `hexbase.py` 89.  `lzmaError` is `lzma.LZMAError`,
which subclasses `Exception` directly (not `OSError`, `ValueError` or
`EOFError`): `lzma.open`'s reader raises it for a corrupt or truncated xz
stream, for data that is not xz at all, and for an integrity-check
(CRC64, see `check=lzma.CHECK_CRC64` at `hexbase.py` 118) mismatch.
`keyError` is `KeyError` from `meta['hash']` / `meta['version']` /
`meta['mtime']` on a dict missing that key (`hexbase.py` 83-86), and
`typeError` is `TypeError` from unpacking a non-iterable JSON value into
the `meta, data, pfiles` triple (`hexbase.py` 82); both also fall outside
the `except` clause. -/
inductive ParseExc where
  | osError : ParseExc
  | valueError : ParseExc
  | eofError : ParseExc
  | lzmaError : ParseExc
  | keyError : ParseExc
  | typeError : ParseExc
deriving DecidableEq, Repr

/-- Whether the `except (OSError, ValueError, EOFError)` clause at
`hexbase.py` 89 catches the exception (log and continue) — the other three
classes propagate out of `HexBase.load`. -/
def ParseExc.caught : ParseExc → Bool
  | .osError => true
  | .valueError => true
  | .eofError => true
  | .lzmaError => false
  | .keyError => false
  | .typeError => false

/-- Outcome of probing one backup candidate during `HexBase.load`:
the file is absent (`os.path.exists` false, `hexbase.py` 79), or it exists
but the `try` body raises exception class `e`, or it parses into a
`SavedFile` triple. -/
inductive Candidate where
  | missing : Candidate
  | raises : ParseExc → Candidate
  | good : SavedFile → Candidate
deriving DecidableEq, Repr

/-- `os.path.exists` for a probed candidate. -/
def Candidate.onDisk : Candidate → Bool
  | .missing => false
  | _ => true

/-- A candidate the loop passes over without breaking or crashing: it is
absent, or it raises one of the classes the `except` clause catches. -/
def Candidate.skipped : Candidate → Bool
  | .missing => true
  | .raises e => e.caught
  | .good _ => false

/-- The `for path in baks:` loop of `HexBase.load` (`hexbase.py` 78-90):
skip missing candidates; on a parse failure of class `OSError`,
`ValueError` or `EOFError` log and continue; `break` with the first
candidate that parses; a failure of any other class (`lzma.LZMAError`,
`KeyError`, `TypeError`) is not caught and propagates (`Except.error`). -/
def loadLoop : List Candidate → Except ParseExc (Option SavedFile)
  | [] => Except.ok none
  | c :: rest =>
    match c with
    | Candidate.missing => loadLoop rest
    | Candidate.raises e => if e.caught then loadLoop rest else Except.error e
    | Candidate.good f => Except.ok (some f)

/-- `HexBase.load` over the rotation sequence (`hexbase.py` 76-95): probe
`rotate(self.index, move=False, limit=BAK_NUM)`'s candidates in order
(`status` is the filesystem's verdict on each name); the `for … else`
clause fires only when the loop ran to completion without parsing any
candidate, and then rotates the primary aside
(`rotate(self.index, limit=BAK_NUM)`) exactly when the primary file
exists.  Returns the parsed triple (if any) and whether the corrupt
primary was rotated aside; an uncaught exception inside the loop aborts
the whole call (`Except.error`), so neither the logging nor the rotation
happens. -/
def hexbaseLoad (root ext : String) (limit : ℕ) (status : String → Candidate) :
    Except ParseExc (Option SavedFile × Bool) :=
  match loadLoop ((rotateNames root ext limit).map status) with
  | Except.error e => Except.error e
  | Except.ok (some f) => Except.ok (some f, false)
  | Except.ok none =>
    Except.ok (none,
      match (rotateNames root ext limit).map status with
      | [] => false
      | c :: _ => c.onDisk)

/-- One `f.read(chunk)` outcome inside `get_hash` (`hash.py` 23-31,
`hexbase.py` 215-222): either bytes are returned (`b''` at end of file)
or an `IOError` is raised. -/
inductive ReadChunk where
  | data : String → ReadChunk
  | err : ReadChunk
deriving DecidableEq, Repr

/-- The `while True` read loop of `get_hash`:  `acc` is the sequence of
chunks already fed to `m.update`, `digestFn` abstracts
`m.hexdigest()` as a function of the chunks consumed.  A raised `IOError`
returns the string `'ioerror'`; an empty read returns the digest truncated
to `truncate` characters.  `none` models a read stream that never reports
end of file (impossible for a real file). -/
def hashLoop (digestFn : List String → String) (truncate : ℕ) (acc : List String) :
    List ReadChunk → Option String
  | [] => none
  | ReadChunk.err :: _ => some "ioerror"
  | ReadChunk.data s :: rest =>
    if s = "" then some ((digestFn acc).take truncate)
    else hashLoop digestFn truncate (acc ++ [s]) rest

/-- `get_hash(path, chunk, truncate)` from `hash.py` 19-37, reading the
stream of chunk outcomes for the file. -/
def get_hash (digestFn : List String → String) (truncate : ℕ)
    (reads : List ReadChunk) : Option String :=
  hashLoop digestFn truncate [] reads

/-- `hash_cmp(a, b)` (`hexbase.py` 31-37 and `hash.py` 10-16): compare two
digests on the shorter of their lengths.  The `assert length >= MINHASH`
makes the call raise `AssertionError` (`none`) instead of returning a
boolean whenever the shorter digest has fewer than 16 characters. -/
def hash_cmp (a b : String) : Option Bool :=
  if min a.length b.length < MINHASH then none
  else if a.take (min a.length b.length) ≠ b.take (min a.length b.length) then some false
  else some true

namespace HexBase

/-- `HexBase.locate(name)` (`hexbase.py` 160-162):
`os.path.join(self.basedir, 'par2', name)`. -/
def locate (basedir name : String) : String := basedir ++ "/par2/" ++ name

/-- `HexBase.get_hash` (`hexbase.py` 212-229): same loop as `hash.py`'s
`get_hash`, with `self.hashfunc` and the fixed `TRUNCATE` width. -/
def get_hash (digestFn : List String → String) (reads : List ReadChunk) : Option String :=
  hashLoop digestFn TRUNCATE [] reads

/-- The inner loop of `HexBase.verify` (`hexbase.py` 243-252) over the
artifacts of one vault entry.  Result: `some` count of artifacts that
verified, or `none` when an exception (the `hash_cmp` assertion) escapes.
Missing artifacts and hash mismatches only print warnings. -/
def verifyArts (digestFn : List String → String) (reads : String → List ReadChunk)
    (onDisk : String → Bool) (basedir : String) : List (String × String) → Option ℕ
  | [] => some 0
  | (name, phash) :: rest =>
    if onDisk (locate basedir name) = false then
      verifyArts digestFn reads onDisk basedir rest
    else
      match get_hash digestFn (reads (locate basedir name)) with
      | none => none
      | some h =>
        match hash_cmp phash h with
        | none => none
        | some true => (verifyArts digestFn reads onDisk basedir rest).map (· + 1)
        | some false => verifyArts digestFn reads onDisk basedir rest

/-- `HexBase.verify` (`hexbase.py` 232-254): walk every vault entry's
artifact map; `none` when an exception escapes. -/
def verify (digestFn : List String → String) (reads : String → List ReadChunk)
    (onDisk : String → Bool) (basedir : String) : Pfiles → Option ℕ
  | [] => some 0
  | (_, arts) :: rest =>
    match verifyArts digestFn reads onDisk basedir arts with
    | none => none
    | some n => (verify digestFn reads onDisk basedir rest).map (· + n)

/-- `os.path.basename`. -/
def basename (s : String) : String :=
  match s.revPosOf '/' with
  | none => s
  | some p => s.extract (s.next p) s.endPos

/-- The artifact loop of `HexBase.get` (`hexbase.py` 188-208).  Result:
`none` = an exception escaped (the `hash_cmp` assertion), `some none` =
the method returned `False`, `some (some ds)` = the copied destination
paths.  `userAnswer` is the operator's reply to the overwrite prompt. -/
def getGo (digestFn : List String → String) (reads : String → List ReadChunk)
    (onDisk : String → Bool) (userAnswer : Bool) (basedir cwd : String) :
    List (String × String) → Option (Option (List String))
  | [] => some (some [])
  | (name, phash) :: rest =>
    if onDisk (locate basedir name) = false then some none
    else
      match get_hash digestFn (reads (locate basedir name)) with
      | none => none
      | some h =>
        match hash_cmp phash h with
        | none => none
        | some _ =>
          if onDisk (joinPath cwd (basename name)) && !userAnswer then some none
          else
            match getGo digestFn reads onDisk userAnswer basedir cwd rest with
            | none => none
            | some none => some none
            | some (some ds) => some (some (joinPath cwd (basename name) :: ds))

/-- `HexBase.get(fhash, cwd)` (`hexbase.py` 185-208): `self.pfiles[fhash]`
raises `KeyError` (`none`) when the digest has no vault entry, otherwise
runs the artifact loop. -/
def get (digestFn : List String → String) (reads : String → List ReadChunk)
    (onDisk : String → Bool) (userAnswer : Bool) (basedir cwd : String)
    (pfiles : Pfiles) (fhash : String) : Option (Option (List String)) :=
  match alookup fhash pfiles with
  | none => none
  | some arts => getGo digestFn reads onDisk userAnswer basedir cwd arts

end HexBase

namespace Database

end Database

/-- The record update performed per file by `Database.gen_hashes`
(`database.py` 278-282): `info.hash = self.get_hash(info.fullpath)`
followed by `info.update()` (refresh mtime and size from disk). -/
def Info.rehashed (info : Info) (hashOf : String → String) (mtimeOf : String → ℚ)
    (sizeOf : String → ℕ) : Info :=
  { info with hash := some (hashOf info.fullpath),
              mtime := mtimeOf info.fullpath, size := sizeOf info.fullpath }

namespace Database

/-- `Database.gen_hashes` (`database.py` 272-284): for each record set
`info.hash` from `self.get_hash(info.fullpath)` (which may be the string
`'ioerror'`) and refresh mtime and size via `info.update()`; every record
is processed. -/
def gen_hashes (hashOf : String → String) (mtimeOf : String → ℚ) (sizeOf : String → ℕ)
    (newhashes : List Info) : List Info :=
  newhashes.map (fun info => info.rehashed hashOf mtimeOf sizeOf)

end Database

/-- A filesystem fragment: mapping from path to file bytes. -/
abbrev FileSys := List (String × String)

namespace HexBase

/-- The artifact name computed by `HexBase.put` (`hexbase.py` 167-169):
`folder = fhash[:2].upper()`, `oname = fhash[2:32+2] + ending`,
`oname = os.path.join(folder, oname)`. -/
def vaultArtifactName (fhash ending : String) : String :=
  (fhash.take 2).toUpper ++ "/" ++ ((fhash.drop 2).take 32 ++ ending)

/-- `HexBase.put(src, fhash, ending)` (`hexbase.py` 165-181): hash the
source artifact (`hashFn` abstracts `self.get_hash`, as a function of the
file's bytes), remove any file already occupying the target name, move the
source there, and record `(oname, phash)` in the vault entry for `fhash`.
`none` models the exception raised when `src` cannot be read. -/
def put (hashFn : String → String) (fs : FileSys) (pfiles : Pfiles)
    (basedir src fhash ending : String) : Option (FileSys × Pfiles) :=
  let oname := vaultArtifactName fhash ending
  let dest := locate basedir oname
  match alookup src fs with
  | none => none
  | some content =>
    let phash := hashFn content
    let fs1 := if (alookup dest fs).isSome then aerase dest fs else fs
    let fs2 := aset dest content (aerase src fs1)
    let pfiles' := aset fhash (aset oname phash ((alookup fhash pfiles).getD [])) pfiles
    some (fs2, pfiles')

end HexBase

/-- Follows the spec's words (§4.4 Naming / §8 invariant 4): for file digest
`H` and suffix `S` the artifact resides at
`<basedir>/par2/H[0:2].upper()/H[2:34] ⊕ S`. -/
def specVaultLocation (basedir H S : String) : String :=
  basedir ++ "/par2/" ++ (H.take 2).toUpper ++ "/" ++ (H.drop 2).take 32 ++ S

/-- The counters and error list accumulated by `Database.verify`. -/
structure VerifyResult where
  file_errors : List String
  missing : ℕ
  updated : ℕ
deriving DecidableEq, Repr

namespace Database

/-- The record loop of `Database.verify` (`database.py` 183-237): count and
skip records with a falsy hash; silently skip records whose file no longer
exists; count and skip records whose on-disk mtime exceeds the stored
mtime by more than `1e-3` seconds ("updated without rescan"); otherwise
compare the stored digest with the recomputed one (`hashOf` is the value
of `self.get_hash(info.fullpath)`) using `!=` and collect the relative
path on mismatch.  Progress output and the trailing `hexbase.verify()`
call are not modelled. -/
def verifyRun (onDisk : String → Bool) (mtimeOf : String → ℚ) (hashOf : String → String) :
    List (String × Info) → VerifyResult
  | [] => ⟨[], 0, 0⟩
  | (relpath, info) :: rest =>
    if strTruthy info.hash = false then
      let r := verifyRun onDisk mtimeOf hashOf rest
      { r with missing := r.missing + 1 }
    else if onDisk info.fullpath = false then
      verifyRun onDisk mtimeOf hashOf rest
    else if mtimeOf info.fullpath > info.mtime + 1/1000 then
      let r := verifyRun onDisk mtimeOf hashOf rest
      { r with updated := r.updated + 1 }
    else if info.hash ≠ some (hashOf info.fullpath) then
      let r := verifyRun onDisk mtimeOf hashOf rest
      { r with file_errors := relpath :: r.file_errors }
    else
      verifyRun onDisk mtimeOf hashOf rest

end Database

/-- One `(stat, pathname)` pair yielded by `walk` to `Database.scan`,
with the pathname already made relative to the target (`rel_path`). -/
structure Entry where
  relpath : String
  mtime : ℚ
  size : ℕ
deriving DecidableEq, Repr

/-- Python `x or d` on an optional number (`None` and `0` are falsy). -/
def orDefault : Option ℕ → ℕ → ℕ
  | none, d => d
  | some 0, d => d
  | some n, _ => n

/-- `maxpar = maxpar or float('inf')` (`database.py` 90): `none` is the
infinite bound. -/
def orInf : Option ℕ → Option ℕ
  | none => none
  | some 0 => none
  | some n => some n

/-- `info.pathname = relpath` (`database.py` 113): only the `pathname`
attribute is updated. -/
def Info.withPath (i : Info) (relpath : String) : Info :=
  { i with pathname := relpath }

/-- `Info(relpath, base=target)` for a new file (`info.py` 11-27):
no digest yet, size and mtime from `update()`. -/
def Info.new (relpath base : String) (mtimeOf : String → ℚ) (sizeOf : String → ℕ) : Info :=
  { pathname := relpath, hash := none,
    mtime := mtimeOf (joinPath base relpath), size := sizeOf (joinPath base relpath),
    fullpath := joinPath base relpath, cwd := dirname (joinPath base relpath) }

namespace Database

/-- The size filter of `walk` (`database.py` 17-42): keep an entry iff its
size is at least `max(minimum, 1)` and, when a maximum is set (non-zero),
at most that maximum. -/
def walkKeep (minimum maximum : ℕ) (e : Entry) : Bool :=
  if e.size < max minimum 1 then false
  else if maximum ≠ 0 ∧ maximum < e.size then false
  else true

/-- `walk(self.target, …, minimum=minscan or 1, maximum=maxscan or 0)`
(`database.py` 102): the scan-bounds filter over the files under the
target.  The directory recursion and the symlink / `.par2` / readability
skips are not modelled: `entries` stands for the accessible regular files
found under the target tree. -/
def walkFilter (minscan maxscan : Option ℕ) (entries : List Entry) : List Entry :=
  entries.filter (walkKeep (orDefault minscan 1) (orDefault maxscan 0))

/-- `size < minpar or size > maxpar` (`database.py` 116). -/
def sizeOutsidePar (minpar : ℕ) (maxpar : Option ℕ) (size : ℕ) : Bool :=
  decide (size < minpar) ||
    (match maxpar with
     | none => false
     | some m => decide (m < size))

/-- `not info.hash or mtime != info.mtime` (`database.py` 119). -/
def needsHashTrigger (info : Info) (mtime : ℚ) : Bool :=
  !strTruthy info.hash || decide (mtime ≠ info.mtime)

/-- `info.hash not in self.hexbase.pfiles or not info.hash or
mtime != info.mtime` (`database.py` 123-124); `None` is never a key of
`pfiles`, so a digest-less record passes the first test. -/
def needsParTrigger (pfiles : Pfiles) (info : Info) (mtime : ℚ) : Bool :=
  (match info.hash with
   | none => true
   | some h => (alookup h pfiles).isNone)
  || !strTruthy info.hash || decide (mtime ≠ info.mtime)

/-- The work lists and updated record mapping produced by `Database.scan`. -/
structure ScanResult where
  newpars : List Info
  newhashes : List Info
  files : List (String × Info)
deriving DecidableEq, Repr

/-- The per-entry loop of `Database.scan` (`database.py` 101-133): existing
records outside the parity range go to `newhashes` when triggered, existing
records inside the parity range go to `newpars` when triggered, and brand
new paths always get a fresh record appended to `newpars`; every processed
entry re-links `self.files[relpath] = info`. -/
def scanGo (pfiles : Pfiles) (minpar : ℕ) (maxpar : Option ℕ) (target : String)
    (mtimeOf : String → ℚ) (sizeOf : String → ℕ) :
    List (String × Info) → List Entry → ScanResult
  | files, [] => ⟨[], [], files⟩
  | files, e :: rest =>
    match alookup e.relpath files with
    | some info0 =>
      let info := info0.withPath e.relpath
      if sizeOutsidePar minpar maxpar e.size then
        if needsHashTrigger info e.mtime then
          let r := scanGo pfiles minpar maxpar target mtimeOf sizeOf
            (aset e.relpath info files) rest
          { r with newhashes := info :: r.newhashes }
        else
          scanGo pfiles minpar maxpar target mtimeOf sizeOf (aset e.relpath info files) rest
      else
        if needsParTrigger pfiles info e.mtime then
          let r := scanGo pfiles minpar maxpar target mtimeOf sizeOf
            (aset e.relpath info files) rest
          { r with newpars := info :: r.newpars }
        else
          scanGo pfiles minpar maxpar target mtimeOf sizeOf (aset e.relpath info files) rest
    | none =>
      let info := Info.new e.relpath target mtimeOf sizeOf
      let r := scanGo pfiles minpar maxpar target mtimeOf sizeOf
        (aset e.relpath info files) rest
      { r with newpars := info :: r.newpars }

/-- `Database.scan(minscan, maxscan, minpar, maxpar)` (`database.py`
79-135): apply the argument defaults, walk the tree with the scan bounds,
and classify every visited entry. -/
def scan (pfiles : Pfiles) (minscan maxscan minpar maxpar : Option ℕ) (target : String)
    (mtimeOf : String → ℚ) (sizeOf : String → ℕ)
    (files : List (String × Info)) (entries : List Entry) : ScanResult :=
  scanGo pfiles (orDefault minpar 1) (orInf maxpar) target mtimeOf sizeOf files
    (walkFilter minscan maxscan entries)

end Database

namespace HexBase

/-- `HexBase.clean(fhash)` (`hexbase.py` 140-156), restricted to its effect
on `pfiles` (the on-disk artifact deletions are not modelled): a digest
with no vault entry (including `None`, which is never a key) returns 0;
otherwise every artifact name appends `fhash` to `deleted`, and the entry
is dropped exactly when `deleted` is non-empty, i.e. when the artifact map
is non-empty.  Returns the new `pfiles` and `len(deleted)`. -/
def clean (pfiles : Pfiles) : Option String → Pfiles × ℕ
  | none => (pfiles, 0)
  | some h =>
    match alookup h pfiles with
    | none => (pfiles, 0)
    | some arts => if arts = [] then (pfiles, 0) else (aerase h pfiles, arts.length)

end HexBase

/-- Lookup in the reverse `hashes` multimap of `Database.cleaner`
(`dict.setdefault` semantics: a missing key reads as `[]`). -/
def mmGet (m : List (Option String × List Info)) (k : Option String) : List Info :=
  (alookup k m).getD []

namespace Database

/-- The reverse multimap built at `database.py` 164-167:
`hashes.setdefault(info.hash, []).append(info)` over the records in order. -/
def buildHashes (files : List (String × Info)) : List (Option String × List Info) :=
  files.foldl (fun m q => aset q.2.hash (mmGet m q.2.hash ++ [q.2]) m) []

/-- The evolving state of `Database.cleaner`: the record mapping, the vault
mapping, the reverse multimap, the digests passed to `self.hexbase.clean`
(in call order), and the running `deleted` total. -/
structure CleanerResult where
  files : List (String × Info)
  pfiles : Pfiles
  hashes : List (Option String × List Info)
  cleanCalls : List (Option String)
  deleted : ℕ
deriving Repr

/-- The loop of `Database.cleaner` (`database.py` 170-178) over the
snapshot `list(self.files.keys())`: for every record whose file no longer
exists, remove one occurrence of its `Info` from `hashes[info.hash]`
(`list.remove`; the record is always present there, so the `ValueError`
branch is unreachable), call `self.hexbase.clean(info.hash)` when that
list empties, and delete the record. -/
def cleanerGo (onDisk : String → Bool) (target : String) :
    List (String × Info) → CleanerResult → CleanerResult
  | [], st => st
  | (p, i) :: rest, st =>
    if onDisk (joinPath target p) then cleanerGo onDisk target rest st
    else
      let hashes := aset i.hash ((mmGet st.hashes i.hash).erase i) st.hashes
      if (mmGet hashes i.hash).isEmpty then
        let cleaned := HexBase.clean st.pfiles i.hash
        cleanerGo onDisk target rest
          ⟨aerase p st.files, cleaned.1, hashes,
           st.cleanCalls ++ [i.hash], st.deleted + cleaned.2⟩
      else
        cleanerGo onDisk target rest
          ⟨aerase p st.files, st.pfiles, hashes, st.cleanCalls, st.deleted⟩

/-- `Database.cleaner` (`database.py` 161-180). -/
def cleaner (onDisk : String → Bool) (target : String)
    (files : List (String × Info)) (pfiles : Pfiles) : CleanerResult :=
  cleanerGo onDisk target files ⟨files, pfiles, buildHashes files, [], 0⟩

end Database

/-- The per-record observations `Database.generate` (`database.py`
333-395) makes: whether `info.hash in self.hexbase.pfiles` at this
record's turn (the vault lookup result is the same in either mode, since
the vault's evolution does not depend on the mode chosen for earlier
records), the par2 child's exit code, and whether hashing produced a
truthy digest. -/
structure ParRecord where
  inVault : Bool
  code : ℕ
  hashOk : Bool
deriving DecidableEq, Repr

/-- `Database.generate`'s status values: `True`, `False`,
`'PARALLEL_EARLY_QUIT'`. -/
inductive GenStatus where
  | ok : GenStatus
  | failed : GenStatus
  | peq : GenStatus
deriving DecidableEq, Repr

/-- What one iteration of `Database.gen_pars` (`database.py` 287-330)
records about a file: the mode it was processed under, its status, and
whether a par2 process was started for it. -/
structure GenTrace where
  mode : Bool
  status : GenStatus
  started : Bool
deriving DecidableEq, Repr

namespace Database

/-- `Database.generate(info, sequential, …)` (`database.py` 333-395),
abstracted over filesystem and child process: the returned status and
whether a par2 process was started.  Sequential mode hashes and consults
the vault first, returning `False` with no par2 started on a hit;
parallel mode starts par2 before hashing and terminates it on a hit
(`'PARALLEL_EARLY_QUIT'`).  A par2 failure or a missing hash yields
`False`.  The renames, signal handlers and temporary-file scan are not
modelled. -/
def generate (sequential : Bool) (r : ParRecord) : GenStatus × Bool :=
  if sequential then
    if r.inVault then (GenStatus.failed, false)
    else if r.code ≠ 0 ∨ r.hashOk = false then (GenStatus.failed, true)
    else (GenStatus.ok, true)
  else
    if r.inVault then (GenStatus.peq, true)
    else if r.code ≠ 0 ∨ r.hashOk = false then (GenStatus.failed, true)
    else (GenStatus.ok, true)

/-- Python's `results[-5:]` slice, generalised to `results[-n:]`. -/
def lastN (n : ℕ) (l : List GenStatus) : List GenStatus :=
  l.drop (l.length - n)

/-- The loop of `Database.gen_pars` (`database.py` 300-327): run
`generate` under the current `sequential` flag, append the status to
`results`, switch to sequential for the remainder of the run when
`not sequential and results[-5:] == ['PARALLEL_EARLY_QUIT'] * 5`, then
trim `results` to five entries (`results.pop(0)`).  The `hexbase.put`
calls and the hourly save are not modelled. -/
def genParsGo (sequential : Bool) (results : List GenStatus) :
    List ParRecord → List GenTrace
  | [] => []
  | r :: rest =>
    let sr := generate sequential r
    let results1 := results ++ [sr.1]
    let seq1 :=
      if sequential = false ∧ lastN 5 results1 = List.replicate 5 GenStatus.peq then true
      else sequential
    let results2 := if results1.length > 5 then results1.drop 1 else results1
    ⟨sequential, sr.1, sr.2⟩ :: genParsGo seq1 results2 rest

/-- `Database.gen_pars(newpars, sequential, …)` (`database.py` 287-330):
the trace of a whole run. -/
def gen_pars (sequential : Bool) (records : List ParRecord) : List GenTrace :=
  genParsGo sequential [] records

end Database

/-- C1: Saving a well-formed index with `Database.save`/`HexBase.save` and
loading the result back with `Database.load`/`HexBase.load` restores every
record's pathname, hash, mtime and size, and restores the vault mapping
(`pfiles`) exactly; only `meta.mtime` (the save timestamp recorded in
`last_save`) is fresh. -/
theorem c1_index_round_trip (files : List (String × Info)) (st prior : HexState)
    (now : ℚ) (target : String) :
    ((Database.load prior (Database.save files st now) target).1.map
        (fun p => (p.1, p.2.pathname, p.2.hash, p.2.mtime, p.2.size)))
      = files.map (fun p => (p.1, p.2.pathname, p.2.hash, p.2.mtime, p.2.size))
    ∧ (Database.load prior (Database.save files st now) target).2.pfiles = st.pfiles := by
  constructor
  · simp only [Database.load, Database.save, HexBase.save, List.map_map]
    apply List.map_congr_left
    intro p _
    simp [Function.comp, Info.ofJson, Info.tojson]
  · rfl

lemma loadLoop_skip (c : Candidate) (rest : List Candidate) (h : c.skipped = true) :
    loadLoop (c :: rest) = loadLoop rest := by
  cases c with
  | missing => rfl
  | raises e =>
    have he : e.caught = true := h
    simp only [loadLoop]
    rw [if_pos he]
  | good f => exact absurd h (by simp [Candidate.skipped])

lemma loadLoop_first_good (l : List Candidate) :
    ∀ i f, l.get? i = some (Candidate.good f) →
    (∀ j, j < i → ∀ c, l.get? j = some c → c.skipped = true) →
    loadLoop l = Except.ok (some f) := by
  induction l with
  | nil => intro i f hi _; simp at hi
  | cons c rest ih =>
    intro i f hi hfirst
    cases i with
    | zero =>
      simp only [List.get?_cons_zero, Option.some.injEq] at hi
      subst hi
      rfl
    | succ n =>
      have hc : c.skipped = true := hfirst 0 (Nat.succ_pos n) c (by simp)
      rw [loadLoop_skip c rest hc]
      refine ih n f (by simpa using hi) ?_
      intro j hj c' hgc
      exact hfirst (j + 1) (Nat.succ_lt_succ hj) c' (by simpa using hgc)

lemma loadLoop_all_skipped (l : List Candidate) :
    (∀ j c, l.get? j = some c → c.skipped = true) → loadLoop l = Except.ok none := by
  induction l with
  | nil => intro _; rfl
  | cons c rest ih =>
    intro h
    have hc : c.skipped = true := h 0 c (by simp)
    rw [loadLoop_skip c rest hc]
    exact ih (fun j c' hj => h (j + 1) c' (by simpa using hj))

lemma loadLoop_crash (l : List Candidate) :
    ∀ i e, l.get? i = some (Candidate.raises e) → e.caught = false →
    (∀ j, j < i → ∀ c, l.get? j = some c → c.skipped = true) →
    loadLoop l = Except.error e := by
  induction l with
  | nil => intro i e hi _ _; simp at hi
  | cons c rest ih =>
    intro i e hi hun hfirst
    cases i with
    | zero =>
      simp only [List.get?_cons_zero, Option.some.injEq] at hi
      subst hi
      simp only [loadLoop]
      rw [if_neg (by rw [hun]; exact Bool.false_ne_true)]
    | succ n =>
      have hc : c.skipped = true := hfirst 0 (Nat.succ_pos n) c (by simp)
      rw [loadLoop_skip c rest hc]
      refine ih n e (by simpa using hi) hun ?_
      intro j hj c' hgc
      exact hfirst (j + 1) (Nat.succ_lt_succ hj) c' (by simpa using hgc)

/-- C2 (amended): `HexBase.load` walks the rotation sequence newest first
(primary, then `.1`, `.2`, …).  (1) When every candidate before position
`i` is absent or fails with one of the classes named by the `except`
clause (`OSError`, `ValueError`, `EOFError`) and candidate `i` parses,
those earlier failures are logged and skipped and candidate `i`'s state is
returned with no rotation performed.  (2) When every candidate is absent
or fails with a caught class, nothing is loaded and the primary is rotated
aside precisely when it exists on disk.  (3) But the skipping is NOT for
any reason: when a candidate fails with `lzma.LZMAError` (corrupt or
non-xz data, or a CRC64 integrity mismatch), `KeyError` or `TypeError`,
`HexBase.load` crashes with that uncaught exception instead of logging and
moving on — later backups are never consulted and no rotation happens. -/
theorem c2_load_protocol :
    (∀ (root ext : String) (limit : ℕ) (status : String → Candidate) (i : ℕ) (f : SavedFile),
        ((rotateNames root ext limit).map status).get? i = some (Candidate.good f) →
        (∀ j, j < i → ∀ c,
          ((rotateNames root ext limit).map status).get? j = some c → c.skipped = true) →
        hexbaseLoad root ext limit status = Except.ok (some f, false))
    ∧ (∀ (root ext : String) (limit : ℕ) (status : String → Candidate),
        (∀ j c, ((rotateNames root ext limit).map status).get? j = some c →
          c.skipped = true) →
        hexbaseLoad root ext limit status = Except.ok (none, (status (root ++ ext)).onDisk))
    ∧ (∀ (root ext : String) (limit : ℕ) (status : String → Candidate) (i : ℕ) (e : ParseExc),
        ((rotateNames root ext limit).map status).get? i = some (Candidate.raises e) →
        e.caught = false →
        (∀ j, j < i → ∀ c,
          ((rotateNames root ext limit).map status).get? j = some c → c.skipped = true) →
        hexbaseLoad root ext limit status = Except.error e) := by
  refine ⟨?_, ?_, ?_⟩
  · intro root ext limit status i f hi hfirst
    unfold hexbaseLoad
    rw [loadLoop_first_good _ i f hi hfirst]
  · intro root ext limit status h
    unfold hexbaseLoad
    rw [loadLoop_all_skipped _ h]
    rfl
  · intro root ext limit status i e hi hun hfirst
    unfold hexbaseLoad
    rw [loadLoop_crash _ i e hi hun hfirst]

theorem c2_load_protocol_witness :
    hexbaseLoad "database" ".xz" 2
      (fun name =>
        if name = "database.1.xz" then
          Candidate.good ⟨⟨0, "sha512", "hex", 64, 1⟩, [], []⟩
        else if name = "database.xz" then Candidate.raises ParseExc.valueError
        else Candidate.missing)
      = Except.ok (some ⟨⟨0, "sha512", "hex", 64, 1⟩, [], []⟩, false) := by
  refine c2_load_protocol.1 "database" ".xz" 2 _ 1 _ (by decide) ?_
  intro j hj c hc
  interval_cases j
  rw [show ((rotateNames "database" ".xz" 2).map
      (fun name =>
        if name = "database.1.xz" then
          Candidate.good ⟨⟨0, "sha512", "hex", 64, 1⟩, [], []⟩
        else if name = "database.xz" then Candidate.raises ParseExc.valueError
        else Candidate.missing)).get? 0
      = some (Candidate.raises ParseExc.valueError) from by decide] at hc
  injection hc with h
  rw [← h]
  rfl

/-- C2 counterexample to the original claim: the primary index file exists
but its xz stream is corrupt (or its CRC64 check fails), so the `try` body
raises `lzma.LZMAError`, a class the `except (OSError, ValueError,
EOFError)` clause at `hexbase.py` 89 does not catch; the `.1` backup is
intact.  The claim says the failure is logged and the walk continues to
the backup, whose state is returned — but `HexBase.load` crashes with the
uncaught `LZMAError` instead, never reaching the backup. -/
theorem c2_counterexample :
    hexbaseLoad "database" ".xz" 2
      (fun name =>
        if name = "database.xz" then Candidate.raises ParseExc.lzmaError
        else if name = "database.1.xz" then
          Candidate.good ⟨⟨0, "sha512", "hex", 64, 1⟩, [], []⟩
        else Candidate.missing)
      = Except.error ParseExc.lzmaError
    ∧ (Except.error ParseExc.lzmaError : Except ParseExc (Option SavedFile × Bool))
      ≠ Except.ok (some ⟨⟨0, "sha512", "hex", 64, 1⟩, [], []⟩, false) := by
  refine ⟨rfl, ?_⟩
  intro h
  exact Except.noConfusion h

lemma hashLoop_runs (digestFn : List String → String) (truncate : ℕ) :
    ∀ (chunks : List String) (acc : List String) (rest : List ReadChunk),
    (∀ c ∈ chunks, c ≠ "") →
    hashLoop digestFn truncate acc (chunks.map ReadChunk.data ++ ReadChunk.data "" :: rest)
      = some ((digestFn (acc ++ chunks)).take truncate) := by
  intro chunks
  induction chunks with
  | nil => intro acc rest _; simp [hashLoop]
  | cons c cs ih =>
    intro acc rest h
    have hc : c ≠ "" := h c (by simp)
    simp only [List.map_cons, List.cons_append, hashLoop, if_neg hc, List.append_eq]
    rw [ih (acc ++ [c]) rest (fun x hx => h x (by simp [hx]))]
    simp

lemma hashLoop_err (digestFn : List String → String) (truncate : ℕ) :
    ∀ (chunks : List String) (acc : List String) (rest : List ReadChunk),
    (∀ c ∈ chunks, c ≠ "") →
    hashLoop digestFn truncate acc (chunks.map ReadChunk.data ++ ReadChunk.err :: rest)
      = some "ioerror" := by
  intro chunks
  induction chunks with
  | nil => intro acc rest _; simp [hashLoop]
  | cons c cs ih =>
    intro acc rest h
    have hc : c ≠ "" := h c (by simp)
    simp only [List.map_cons, List.cons_append, hashLoop, if_neg hc, List.append_eq]
    exact ih (acc ++ [c]) rest (fun x hx => h x (by simp [hx]))

/-- C7 counterexample: on a read failure `get_hash` returns the string
`'ioerror'` (7 characters, no hyphen), not the claimed sentinel
`'io-error'`. -/
theorem c7_counterexample :
    get_hash (fun _ => "") 64 [ReadChunk.err] = some "ioerror"
    ∧ (some "ioerror" : Option String) ≠ some "io-error" := by
  exact ⟨rfl, by decide⟩

/-- C7 (amended): `get_hash` returns the hex digest of the consumed chunks
truncated to the configured width (default `TRUNCATE = 64`) when all reads
succeed, and returns the sentinel `'ioerror'` as soon as a read raises; in
the hash pipeline a read failure leaves the record's digest equal to that
sentinel and every remaining record is still processed. -/
theorem c7_hasher_sentinel :
    TRUNCATE = 64
    ∧ (∀ (digestFn : List String → String) (truncate : ℕ) (chunks : List String)
          (rest : List ReadChunk), (∀ c ∈ chunks, c ≠ "") →
        get_hash digestFn truncate (chunks.map ReadChunk.data ++ ReadChunk.data "" :: rest)
          = some ((digestFn chunks).take truncate))
    ∧ (∀ (digestFn : List String → String) (truncate : ℕ) (chunks : List String)
          (rest : List ReadChunk), (∀ c ∈ chunks, c ≠ "") →
        get_hash digestFn truncate (chunks.map ReadChunk.data ++ ReadChunk.err :: rest)
          = some "ioerror")
    ∧ (∀ (hashOf : String → String) (mtimeOf : String → ℚ) (sizeOf : String → ℕ)
          (l : List Info),
        (Database.gen_hashes hashOf mtimeOf sizeOf l).length = l.length
        ∧ ∀ (k : ℕ) (info : Info), l.get? k = some info →
            (Database.gen_hashes hashOf mtimeOf sizeOf l).get? k
              = some (info.rehashed hashOf mtimeOf sizeOf)) := by
  refine ⟨rfl, ?_, ?_, ?_⟩
  · intro digestFn truncate chunks rest h
    simpa using hashLoop_runs digestFn truncate chunks [] rest h
  · intro digestFn truncate chunks rest h
    exact hashLoop_err digestFn truncate chunks [] rest h
  · intro hashOf mtimeOf sizeOf l
    refine ⟨by simp [Database.gen_hashes], ?_⟩
    intro k info hk
    simp only [Database.gen_hashes, List.get?_eq_getElem?] at hk ⊢
    simp [List.getElem?_map, hk]

theorem c7_hasher_sentinel_witness :
    get_hash (fun _ => "deadbeef") 4
        [ReadChunk.data "ab", ReadChunk.data "cd", ReadChunk.data ""] = some "dead"
    ∧ get_hash (fun _ => "deadbeef") 64 [ReadChunk.data "ab", ReadChunk.err] = some "ioerror"
    ∧ (Database.gen_hashes (fun _ => "ioerror") (fun _ => 0) (fun _ => 0)
        [⟨"a.bin", none, 0, 0, "t/a.bin", "t"⟩]).get? 0
        = some ⟨"a.bin", some "ioerror", 0, 0, "t/a.bin", "t"⟩ := by
  refine ⟨?_, ?_, ?_⟩
  · have h := c7_hasher_sentinel.2.1 (fun _ => "deadbeef") 4 ["ab", "cd"] [] (by decide)
    simpa using h
  · have h := c7_hasher_sentinel.2.2.1 (fun _ => "deadbeef") 64 ["ab"] [] (by decide)
    simpa using h
  · have h := (c7_hasher_sentinel.2.2.2 (fun _ => "ioerror") (fun _ => 0) (fun _ => 0)
      [⟨"a.bin", none, 0, 0, "t/a.bin", "t"⟩]).2 0 ⟨"a.bin", none, 0, 0, "t/a.bin", "t"⟩ rfl
    simpa using h

/-- C10: `hash_cmp` asserts that the shorter digest has at least
`MINHASH = 16` characters, so any pair where either argument is shorter
raises `AssertionError` instead of returning a boolean; pairs meeting the
bound do return a boolean.  In particular the 7-character `'ioerror'`
sentinel produced by `get_hash` on a failed read always trips the
assertion, so `HexBase.verify` and `HexBase.get` raise an uncaught
`AssertionError` (`none`) when reading an existing artifact fails. -/
theorem c10_hash_cmp_assert :
    (∀ a b : String, min a.length b.length < MINHASH → hash_cmp a b = none)
    ∧ (∀ a b : String, MINHASH ≤ min a.length b.length → ∃ r : Bool, hash_cmp a b = some r)
    ∧ (∀ phash : String, hash_cmp phash "ioerror" = none)
    ∧ (∀ (digestFn : List String → String) (reads : String → List ReadChunk)
          (onDisk : String → Bool) (basedir name phash : String)
          (rest : List (String × String)),
        onDisk (HexBase.locate basedir name) = true →
        reads (HexBase.locate basedir name) = [ReadChunk.err] →
        HexBase.verifyArts digestFn reads onDisk basedir ((name, phash) :: rest) = none)
    ∧ (∀ (digestFn : List String → String) (reads : String → List ReadChunk)
          (onDisk : String → Bool) (ua : Bool) (basedir cwd : String) (pfiles : Pfiles)
          (fhash name phash : String) (rest : List (String × String)),
        alookup fhash pfiles = some ((name, phash) :: rest) →
        onDisk (HexBase.locate basedir name) = true →
        reads (HexBase.locate basedir name) = [ReadChunk.err] →
        HexBase.get digestFn reads onDisk ua basedir cwd pfiles fhash = none) := by
  have hshort : ∀ a b : String, min a.length b.length < MINHASH → hash_cmp a b = none := by
    intro a b h
    unfold hash_cmp
    rw [if_pos h]
  have hio : ∀ phash : String, hash_cmp phash "ioerror" = none := by
    intro phash
    apply hshort
    have h7 : ("ioerror" : String).length = 7 := by decide
    have hle := Nat.min_le_right phash.length (("ioerror" : String).length)
    rw [h7] at hle
    simp only [MINHASH]
    omega
  refine ⟨hshort, ?_, hio, ?_, ?_⟩
  · intro a b h
    unfold hash_cmp
    rw [if_neg (Nat.not_lt.mpr h)]
    split
    · exact ⟨false, rfl⟩
    · exact ⟨true, rfl⟩
  · intro digestFn reads onDisk basedir name phash rest h1 h2
    simp [HexBase.verifyArts, h1, h2, HexBase.get_hash, hashLoop, hio]
  · intro digestFn reads onDisk ua basedir cwd pfiles fhash name phash rest hpf h1 h2
    simp [HexBase.get, hpf, HexBase.getGo, h1, h2, HexBase.get_hash, hashLoop, hio]

theorem c10_hash_cmp_assert_witness :
    hash_cmp "abc" "0123456789abcdef" = none
    ∧ hash_cmp "0123456789abcdef" "0123456789abcdef" = some true
    ∧ hash_cmp "deadbeef" "ioerror" = none
    ∧ HexBase.verifyArts (fun _ => "d") (fun _ => [ReadChunk.err]) (fun _ => true) "base"
        [("AB/cdef.0.par2", "0123456789abcdef0123456789abcdef")] = none
    ∧ HexBase.get (fun _ => "d") (fun _ => [ReadChunk.err]) (fun _ => true) true "base" "cwd"
        [("h0123456789abcdef", [("AB/cdef.0.par2", "0123456789abcdef0123456789abcdef")])]
        "h0123456789abcdef" = none := by
  refine ⟨?_, ?_, ?_, ?_, ?_⟩
  · exact c10_hash_cmp_assert.1 "abc" "0123456789abcdef" (by decide)
  · obtain ⟨r, hr⟩ := c10_hash_cmp_assert.2.1 "0123456789abcdef" "0123456789abcdef" (by decide)
    cases r with
    | true => exact hr
    | false => rw [hr]; revert hr; decide
  · exact c10_hash_cmp_assert.2.2.1 "deadbeef"
  · exact c10_hash_cmp_assert.2.2.2.1 (fun _ => "d") (fun _ => [ReadChunk.err]) (fun _ => true)
      "base" "AB/cdef.0.par2" "0123456789abcdef0123456789abcdef" [] rfl rfl
  · exact c10_hash_cmp_assert.2.2.2.2 (fun _ => "d") (fun _ => [ReadChunk.err]) (fun _ => true)
      true "base" "cwd"
      [("h0123456789abcdef", [("AB/cdef.0.par2", "0123456789abcdef0123456789abcdef")])]
      "h0123456789abcdef" "AB/cdef.0.par2" "0123456789abcdef0123456789abcdef" []
      (by decide) rfl rfl

section AssocLemmas

variable {α β : Type} [DecidableEq α]

lemma alookup_cons (k a : α) (b : β) (rest : List (α × β)) :
    alookup k ((a, b) :: rest) = if a = k then some b else alookup k rest := rfl

lemma aset_cons (k a : α) (v b : β) (rest : List (α × β)) :
    aset k v ((a, b) :: rest) = if a = k then (k, v) :: rest else (a, b) :: aset k v rest := rfl

lemma aerase_cons (k a : α) (b : β) (rest : List (α × β)) :
    aerase k ((a, b) :: rest) = if a = k then aerase k rest else (a, b) :: aerase k rest := rfl

lemma alookup_aset_self (k : α) (v : β) (l : List (α × β)) :
    alookup k (aset k v l) = some v := by
  induction l with
  | nil => simp [aset, alookup]
  | cons p rest ih =>
    obtain ⟨a, b⟩ := p
    rw [aset_cons]
    by_cases h : a = k
    · rw [if_pos h, alookup_cons, if_pos rfl]
    · rw [if_neg h, alookup_cons, if_neg h, ih]

lemma alookup_aset_ne {k' k : α} (h : k' ≠ k) (v : β) (l : List (α × β)) :
    alookup k (aset k' v l) = alookup k l := by
  induction l with
  | nil => simp [aset, alookup, h]
  | cons p rest ih =>
    obtain ⟨a, b⟩ := p
    rw [aset_cons]
    by_cases ha : a = k'
    · subst ha
      rw [if_pos rfl, alookup_cons, if_neg h, alookup_cons, if_neg h]
    · rw [if_neg ha, alookup_cons, alookup_cons]
      by_cases hk : a = k
      · rw [if_pos hk, if_pos hk]
      · rw [if_neg hk, if_neg hk, ih]

lemma alookup_aerase_self (k : α) (l : List (α × β)) :
    alookup k (aerase k l) = none := by
  induction l with
  | nil => rfl
  | cons p rest ih =>
    obtain ⟨a, b⟩ := p
    rw [aerase_cons]
    by_cases h : a = k
    · rw [if_pos h]; exact ih
    · rw [if_neg h, alookup_cons, if_neg h]; exact ih

lemma alookup_aerase_ne {k' k : α} (h : k' ≠ k) (l : List (α × β)) :
    alookup k (aerase k' l) = alookup k l := by
  induction l with
  | nil => rfl
  | cons p rest ih =>
    obtain ⟨a, b⟩ := p
    rw [aerase_cons]
    by_cases ha : a = k'
    · subst ha
      rw [if_pos rfl, alookup_cons, if_neg h]
      exact ih
    · rw [if_neg ha, alookup_cons, alookup_cons]
      by_cases hk : a = k
      · rw [if_pos hk, if_pos hk]
      · rw [if_neg hk, if_neg hk, ih]

lemma keys_aerase_sublist (k : α) (l : List (α × β)) :
    ((aerase k l).map Prod.fst).Sublist (l.map Prod.fst) := by
  induction l with
  | nil => simp [aerase]
  | cons p rest ih =>
    obtain ⟨a, b⟩ := p
    rw [aerase_cons]
    by_cases h : a = k
    · rw [if_pos h]
      exact ih.trans (List.sublist_cons_self a (rest.map Prod.fst))
    · rw [if_neg h, List.map_cons, List.map_cons]
      exact ih.cons₂ a

lemma nodup_keys_aerase (k : α) {l : List (α × β)} (h : (l.map Prod.fst).Nodup) :
    ((aerase k l).map Prod.fst).Nodup :=
  (keys_aerase_sublist k l).nodup h

lemma mem_keys_aset_iff (x k : α) (v : β) (l : List (α × β)) :
    x ∈ (aset k v l).map Prod.fst ↔ x = k ∨ x ∈ l.map Prod.fst := by
  induction l with
  | nil => simp [aset]
  | cons p rest ih =>
    obtain ⟨a, b⟩ := p
    rw [aset_cons]
    by_cases h : a = k
    · subst h
      rw [if_pos rfl]
      simp
    · rw [if_neg h, List.map_cons, List.map_cons]
      simp only [List.mem_cons, ih]
      tauto

lemma nodup_keys_aset (k : α) (v : β) {l : List (α × β)} (h : (l.map Prod.fst).Nodup) :
    ((aset k v l).map Prod.fst).Nodup := by
  induction l with
  | nil => simp [aset]
  | cons p rest ih =>
    obtain ⟨a, b⟩ := p
    simp only [List.map_cons, List.nodup_cons] at h
    rw [aset_cons]
    by_cases ha : a = k
    · subst ha
      rw [if_pos rfl, List.map_cons]
      exact List.nodup_cons.mpr h
    · rw [if_neg ha, List.map_cons]
      refine List.nodup_cons.mpr ⟨?_, ih h.2⟩
      rw [mem_keys_aset_iff]
      push_neg
      exact ⟨ha, h.1⟩

end AssocLemmas

lemma string_append_assoc (a b c : String) : a ++ b ++ c = a ++ (b ++ c) := by
  apply String.ext
  simp

/-- C6: `HexBase.put` computes the artifact's digest, clears the target
name, moves the source to `<basedir>/par2/H[0:2].upper()/H[2:34] ⊕ S`
(the location the spec prescribes), and records the
`(artifact_name, artifact_digest)` pair in the vault entry for `H`;
afterwards the destination holds the moved bytes, exactly one directory
entry exists for the `(H, S)` pair, and the source path no longer exists. -/
theorem c6_put_installs (hashFn : String → String) (fs : FileSys) (pfiles : Pfiles)
    (basedir src fhash ending content : String)
    (hnodup : (fs.map Prod.fst).Nodup)
    (hsrc : alookup src fs = some content)
    (hne : src ≠ HexBase.locate basedir (HexBase.vaultArtifactName fhash ending)) :
    HexBase.locate basedir (HexBase.vaultArtifactName fhash ending)
        = specVaultLocation basedir fhash ending
    ∧ (HexBase.put hashFn fs pfiles basedir src fhash ending).map
        (fun r => (alookup (specVaultLocation basedir fhash ending) r.1,
                   alookup src r.1,
                   (r.1.map Prod.fst).count (specVaultLocation basedir fhash ending),
                   (alookup fhash r.2).bind
                     (alookup (HexBase.vaultArtifactName fhash ending))))
      = some (some content, none, 1, some (hashFn content)) := by
  have hname : HexBase.locate basedir (HexBase.vaultArtifactName fhash ending)
      = specVaultLocation basedir fhash ending := by
    unfold HexBase.locate HexBase.vaultArtifactName specVaultLocation
    apply String.ext
    simp
  refine ⟨hname, ?_⟩
  unfold HexBase.put
  rw [hsrc]
  rw [← hname]
  set dest := HexBase.locate basedir (HexBase.vaultArtifactName fhash ending) with hdest
  simp only [Option.map_some', Option.some.injEq, Prod.mk.injEq]
  refine ⟨?_, ?_, ?_, ?_⟩
  · exact alookup_aset_self dest content _
  · rw [alookup_aset_ne (fun h => hne h.symm) content _]
    exact alookup_aerase_self src _
  · have hnod2 : (((aset dest content (aerase src
        (if (alookup dest fs).isSome then aerase dest fs else fs))).map Prod.fst).Nodup) := by
      apply nodup_keys_aset
      apply nodup_keys_aerase
      split
      · exact nodup_keys_aerase dest hnodup
      · exact hnodup
    have hmem : dest ∈ ((aset dest content (aerase src
        (if (alookup dest fs).isSome then aerase dest fs else fs))).map Prod.fst) := by
      rw [mem_keys_aset_iff]
      exact Or.inl rfl
    exact List.count_eq_one_of_mem hnod2 hmem
  · rw [alookup_aset_self fhash _ pfiles]
    simp only [Option.some_bind]
    exact alookup_aset_self (HexBase.vaultArtifactName fhash ending) _ _

set_option maxRecDepth 8192 in
theorem c6_put_installs_witness :
    HexBase.locate "base" (HexBase.vaultArtifactName
        "abcdef0123456789abcdef0123456789abcd" ".0.par2")
      = specVaultLocation "base" "abcdef0123456789abcdef0123456789abcd" ".0.par2"
    ∧ (HexBase.put (fun c => "ph-" ++ c) [("tmp.par2", "DATA")] [] "base" "tmp.par2"
        "abcdef0123456789abcdef0123456789abcd" ".0.par2").map
        (fun r => (alookup (specVaultLocation "base"
                     "abcdef0123456789abcdef0123456789abcd" ".0.par2") r.1,
                   alookup "tmp.par2" r.1,
                   (r.1.map Prod.fst).count (specVaultLocation "base"
                     "abcdef0123456789abcdef0123456789abcd" ".0.par2"),
                   (alookup "abcdef0123456789abcdef0123456789abcd" r.2).bind
                     (alookup (HexBase.vaultArtifactName
                       "abcdef0123456789abcdef0123456789abcd" ".0.par2"))))
      = some (some "DATA", none, 1, some ("ph-" ++ "DATA")) :=
  c6_put_installs (fun c => "ph-" ++ c) [("tmp.par2", "DATA")] [] "base" "tmp.par2"
    "abcdef0123456789abcdef0123456789abcd" ".0.par2" "DATA"
    (by decide) (by decide) (by decide)

lemma verifyRun_errors_subset (onDisk : String → Bool) (mtimeOf : String → ℚ)
    (hashOf : String → String) :
    ∀ (files : List (String × Info)) (x : String),
      x ∈ (Database.verifyRun onDisk mtimeOf hashOf files).file_errors →
      x ∈ files.map Prod.fst := by
  intro files
  induction files with
  | nil => intro x hx; simp [Database.verifyRun] at hx
  | cons q rest ih =>
    obtain ⟨a, b⟩ := q
    intro x hx
    simp only [Database.verifyRun] at hx
    rw [List.map_cons]
    split_ifs at hx with h1 h2 h3 h4
    · exact List.mem_cons_of_mem a (ih x hx)
    · exact List.mem_cons_of_mem a (ih x hx)
    · exact List.mem_cons_of_mem a (ih x hx)
    · rcases List.mem_cons.mp hx with h | h
      · exact h ▸ List.mem_cons_self a _
      · exact List.mem_cons_of_mem a (ih x h)
    · exact List.mem_cons_of_mem a (ih x hx)

lemma verifyRun_missing_count (onDisk : String → Bool) (mtimeOf : String → ℚ)
    (hashOf : String → String) :
    ∀ (files : List (String × Info)),
      (Database.verifyRun onDisk mtimeOf hashOf files).missing
        = (files.filter (fun q => !strTruthy q.2.hash)).length := by
  intro files
  induction files with
  | nil => rfl
  | cons q rest ih =>
    obtain ⟨a, b⟩ := q
    simp only [Database.verifyRun, List.filter_cons]
    split_ifs with h1 h2 h3 h4 <;> simp_all [ih]

lemma verifyRun_updated_count (onDisk : String → Bool) (mtimeOf : String → ℚ)
    (hashOf : String → String) :
    ∀ (files : List (String × Info)),
      (Database.verifyRun onDisk mtimeOf hashOf files).updated
        = (files.filter (fun q => strTruthy q.2.hash && onDisk q.2.fullpath
            && decide (q.2.mtime + 1/1000 < mtimeOf q.2.fullpath))).length := by
  intro files
  induction files with
  | nil => rfl
  | cons q rest ih =>
    obtain ⟨a, b⟩ := q
    simp only [Database.verifyRun]
    split_ifs with h1 h2 h3 h4
    · rw [List.filter_cons, if_neg (by simp [h1])]
      exact ih
    · have hb : strTruthy b.hash = true := by revert h1; cases strTruthy b.hash <;> simp
      rw [List.filter_cons, if_neg (by simp [h2])]
      exact ih
    · have hb : strTruthy b.hash = true := by revert h1; cases strTruthy b.hash <;> simp
      have hdk : onDisk b.fullpath = true := by revert h2; cases onDisk b.fullpath <;> simp
      rw [List.filter_cons,
        if_pos (by rw [hb, hdk]; simp only [Bool.true_and]; exact decide_eq_true h3)]
      rw [List.length_cons, ih]
    · have hcf : (strTruthy b.hash && onDisk b.fullpath
          && decide (b.mtime + 1/1000 < mtimeOf b.fullpath)) = false := by
        rw [decide_eq_false h3]
        simp
      rw [List.filter_cons, if_neg (by rw [hcf]; exact Bool.false_ne_true)]
      exact ih
    · have hcf : (strTruthy b.hash && onDisk b.fullpath
          && decide (b.mtime + 1/1000 < mtimeOf b.fullpath)) = false := by
        rw [decide_eq_false h3]
        simp
      rw [List.filter_cons, if_neg (by rw [hcf]; exact Bool.false_ne_true)]
      exact ih

/-- C5 counterexample: `Database.verify` compares digests with `!=`, not
with the length-tolerant `hash_cmp`.  A record that stores a 16-character
digest which is a prefix of the freshly computed 64-character digest is
accepted by `hash_cmp` (`some true`) yet is reported as corrupted. -/
theorem c5_counterexample :
    hash_cmp "0123456789abcdef"
        "0123456789abcdef0123456789abcdef0123456789abcdef0123456789abcdef" = some true
    ∧ (Database.verifyRun (fun _ => true) (fun _ => (5 : ℚ))
        (fun _ => "0123456789abcdef0123456789abcdef0123456789abcdef0123456789abcdef")
        [("f.bin", ⟨"f.bin", some "0123456789abcdef", 5, 1, "t/f.bin", "t"⟩)]).file_errors
      = ["f.bin"] := by
  constructor
  · decide
  · simp only [Database.verifyRun]
    split_ifs with h1 h2 h3 h4
    · exact absurd h1 (by decide)
    · exact absurd h2 (by decide)
    · exact absurd h3 (by norm_num)
    · rfl
    · exact absurd (not_not.mp h4) (by decide)

/-- C5 (amended): for every indexed record, `Database.verify` reports the
path as corrupted exactly when the record has a truthy digest, its file
exists, the on-disk mtime does not exceed the stored mtime by more than
1 ms, and the stored digest differs from the freshly computed digest under
plain string equality (not the length-tolerant comparator); records with
no digest are skipped and counted, and records whose on-disk mtime exceeds
the stored mtime by more than 1 ms are counted as updated without rescan
and skipped. -/
theorem c5_verify_exact_equality (onDisk : String → Bool) (mtimeOf : String → ℚ)
    (hashOf : String → String) (files : List (String × Info))
    (hnodup : (files.map Prod.fst).Nodup) :
    (∀ p info, (p, info) ∈ files →
      (p ∈ (Database.verifyRun onDisk mtimeOf hashOf files).file_errors ↔
        (strTruthy info.hash = true ∧ onDisk info.fullpath = true
          ∧ mtimeOf info.fullpath ≤ info.mtime + 1/1000
          ∧ info.hash ≠ some (hashOf info.fullpath))))
    ∧ (Database.verifyRun onDisk mtimeOf hashOf files).missing
        = (files.filter (fun q => !strTruthy q.2.hash)).length
    ∧ (Database.verifyRun onDisk mtimeOf hashOf files).updated
        = (files.filter (fun q => strTruthy q.2.hash && onDisk q.2.fullpath
            && decide (q.2.mtime + 1/1000 < mtimeOf q.2.fullpath))).length := by
  refine ⟨?_, verifyRun_missing_count onDisk mtimeOf hashOf files,
    verifyRun_updated_count onDisk mtimeOf hashOf files⟩
  induction files with
  | nil => intro p info h; simp at h
  | cons q rest ih =>
    obtain ⟨a, b⟩ := q
    simp only [List.map_cons, List.nodup_cons] at hnodup
    obtain ⟨hnotin, hnd⟩ := hnodup
    intro p info hmem
    rcases List.mem_cons.mp hmem with heq | hrest
    · injection heq with hp hi
      subst hp
      subst hi
      simp only [Database.verifyRun]
      split_ifs with h1 h2 h3 h4
      · constructor
        · intro hx
          exact absurd (verifyRun_errors_subset onDisk mtimeOf hashOf rest p hx) hnotin
        · rintro ⟨ht, -⟩
          rw [h1] at ht
          exact (Bool.false_ne_true ht).elim
      · constructor
        · intro hx
          exact absurd (verifyRun_errors_subset onDisk mtimeOf hashOf rest p hx) hnotin
        · rintro ⟨-, hd, -⟩
          rw [h2] at hd
          exact (Bool.false_ne_true hd).elim
      · constructor
        · intro hx
          exact absurd (verifyRun_errors_subset onDisk mtimeOf hashOf rest p hx) hnotin
        · rintro ⟨-, -, hle, -⟩
          exact absurd h3 (not_lt.mpr hle)
      · have ht : strTruthy info.hash = true := by
          revert h1; cases strTruthy info.hash <;> simp
        have hd : onDisk info.fullpath = true := by
          revert h2; cases onDisk info.fullpath <;> simp
        constructor
        · intro _
          exact ⟨ht, hd, not_lt.mp h3, h4⟩
        · intro _
          exact List.mem_cons_self p _
      · constructor
        · intro hx
          exact absurd (verifyRun_errors_subset onDisk mtimeOf hashOf rest p hx) hnotin
        · rintro ⟨-, -, -, hne⟩
          exact absurd (not_not.mp h4) hne
    · have hpa : p ≠ a := by
        intro h
        subst h
        exact hnotin (List.mem_map.mpr ⟨(p, info), hrest, rfl⟩)
      simp only [Database.verifyRun]
      split_ifs with h1 h2 h3 h4
      · exact ih hnd p info hrest
      · exact ih hnd p info hrest
      · exact ih hnd p info hrest
      · constructor
        · intro hx
          rcases List.mem_cons.mp hx with h | h
          · exact absurd h hpa
          · exact (ih hnd p info hrest).mp h
        · intro hc
          exact List.mem_cons_of_mem a ((ih hnd p info hrest).mpr hc)
      · exact ih hnd p info hrest

theorem c5_verify_exact_equality_witness :
    "bad.bin" ∈ (Database.verifyRun (fun _ => true) (fun _ => (5 : ℚ))
        (fun _ => "h0123456789abcdef")
        [("bad.bin", ⟨"bad.bin", some "x0123456789abcdef", 5, 1, "t/bad.bin", "t"⟩)]).file_errors := by
  have h := (c5_verify_exact_equality (fun _ => true) (fun _ => (5 : ℚ))
      (fun _ => "h0123456789abcdef")
      [("bad.bin", ⟨"bad.bin", some "x0123456789abcdef", 5, 1, "t/bad.bin", "t"⟩)]
      (by decide)).1 "bad.bin" ⟨"bad.bin", some "x0123456789abcdef", 5, 1, "t/bad.bin", "t"⟩
      (by simp)
  exact h.mpr ⟨by decide, rfl, by norm_num, by decide⟩

lemma scanGo_newpars_pathnames (pfiles : Pfiles) (minpar : ℕ) (maxpar : Option ℕ)
    (target : String) (mtimeOf : String → ℚ) (sizeOf : String → ℕ) :
    ∀ (entries : List Entry) (files : List (String × Info)) (r : Info),
      r ∈ (Database.scanGo pfiles minpar maxpar target mtimeOf sizeOf files entries).newpars →
      r.pathname ∈ entries.map Entry.relpath := by
  intro entries
  induction entries with
  | nil => intro files r hr; simp [Database.scanGo] at hr
  | cons e rest ih =>
    intro files r hr
    rw [List.map_cons]
    cases hl : alookup e.relpath files with
    | some info0 =>
      simp only [Database.scanGo, hl] at hr
      split_ifs at hr with h1 h2 h3
      · exact List.mem_cons_of_mem _ (ih _ r hr)
      · exact List.mem_cons_of_mem _ (ih _ r hr)
      · rcases List.mem_cons.mp hr with hh | hh
        · subst hh
          exact List.mem_cons_self _ _
        · exact List.mem_cons_of_mem _ (ih _ r hh)
      · exact List.mem_cons_of_mem _ (ih _ r hr)
    | none =>
      simp only [Database.scanGo, hl] at hr
      rcases List.mem_cons.mp hr with hh | hh
      · subst hh
        exact List.mem_cons_self _ _
      · exact List.mem_cons_of_mem _ (ih _ r hh)

lemma scanGo_existing_outside (pfiles : Pfiles) (minpar : ℕ) (maxpar : Option ℕ)
    (target : String) (mtimeOf : String → ℚ) (sizeOf : String → ℕ)
    (e : Entry) (info0 : Info) :
    ∀ (entries : List Entry) (files : List (String × Info)),
      (entries.map Entry.relpath).Nodup →
      e ∈ entries →
      alookup e.relpath files = some info0 →
      Database.sizeOutsidePar minpar maxpar e.size = true →
      Database.needsHashTrigger (info0.withPath e.relpath) e.mtime = true →
      (info0.withPath e.relpath
        ∈ (Database.scanGo pfiles minpar maxpar target mtimeOf sizeOf files entries).newhashes)
      ∧ ∀ r ∈ (Database.scanGo pfiles minpar maxpar target mtimeOf sizeOf
            files entries).newpars, r.pathname ≠ e.relpath := by
  intro entries
  induction entries with
  | nil => intro files _ he; intro h; simp at he
  | cons f rest ih =>
    intro files hnodup hmem hlook hout htrig
    rw [List.map_cons, List.nodup_cons] at hnodup
    obtain ⟨hfnotin, hnd⟩ := hnodup
    rcases List.mem_cons.mp hmem with heq | hrest
    · subst heq
      simp only [Database.scanGo, hlook]
      rw [if_pos hout, if_pos htrig]
      constructor
      · exact List.mem_cons_self _ _
      · intro r hr hcontra
        have hmemp := scanGo_newpars_pathnames pfiles minpar maxpar target mtimeOf sizeOf
          rest (aset e.relpath (info0.withPath e.relpath) files) r hr
        rw [hcontra] at hmemp
        exact hfnotin hmemp
    · have hfe : f.relpath ≠ e.relpath := by
        intro hcontra
        apply hfnotin
        rw [hcontra]
        exact List.mem_map.mpr ⟨e, hrest, rfl⟩
      have hlook' : ∀ i : Info, alookup e.relpath (aset f.relpath i files) = some info0 := by
        intro i
        rw [alookup_aset_ne hfe i files]
        exact hlook
      cases hl : alookup f.relpath files with
      | some j =>
        simp only [Database.scanGo, hl]
        split_ifs with h1 h2 h3
        · have IH := ih (aset f.relpath (j.withPath f.relpath) files) hnd hrest
            (hlook' _) hout htrig
          exact ⟨List.mem_cons_of_mem _ IH.1, IH.2⟩
        · exact ih (aset f.relpath (j.withPath f.relpath) files) hnd hrest
            (hlook' _) hout htrig
        · have IH := ih (aset f.relpath (j.withPath f.relpath) files) hnd hrest
            (hlook' _) hout htrig
          refine ⟨IH.1, ?_⟩
          intro r hr
          rcases List.mem_cons.mp hr with hh | hh
          · subst hh
            exact hfe
          · exact IH.2 r hh
        · exact ih (aset f.relpath (j.withPath f.relpath) files) hnd hrest
            (hlook' _) hout htrig
      | none =>
        simp only [Database.scanGo, hl]
        have IH := ih (aset f.relpath (Info.new f.relpath target mtimeOf sizeOf) files)
          hnd hrest (hlook' _) hout htrig
        refine ⟨IH.1, ?_⟩
        intro r hr
        rcases List.mem_cons.mp hr with hh | hh
        · subst hh
          exact hfe
        · exact IH.2 r hh

/-- C3 counterexample: a brand-new path whose size (10) lies outside the
parity bounds (`minpar = 20`) is appended to `needs_parity`, not to
`needs_hash`: the new-file branch of `Database.scan` runs before any size
check. -/
theorem c3_counterexample :
    (Database.scan [] none none (some 20) none "t" (fun _ => (7 : ℚ)) (fun _ => 10)
        [] [⟨"new.bin", 7, 10⟩]).newhashes = []
    ∧ (Database.scan [] none none (some 20) none "t" (fun _ => (7 : ℚ)) (fun _ => 10)
        [] [⟨"new.bin", 7, 10⟩]).newpars
      = [Info.new "new.bin" "t" (fun _ => (7 : ℚ)) (fun _ => 10)] :=
  ⟨rfl, rfl⟩

/-- C3 (amended): for every scanned path that already has a record in the
index, whose size passes the scan bounds but lies outside the parity
bounds `[minpar, maxpar]`, the planner emits its record in the
`needs_hash` list (never in `needs_parity`) whenever its digest is absent
or the on-disk mtime differs from the stored mtime; a brand-new path,
however, always goes to `needs_parity` regardless of the parity bounds. -/
theorem c3_scan_classification
    (pfiles : Pfiles) (minscan maxscan minpar maxpar : Option ℕ) (target : String)
    (mtimeOf : String → ℚ) (sizeOf : String → ℕ)
    (files : List (String × Info)) (entries : List Entry) (e : Entry) (info0 : Info)
    (hnodup : ((Database.walkFilter minscan maxscan entries).map Entry.relpath).Nodup)
    (hmem : e ∈ Database.walkFilter minscan maxscan entries)
    (hlook : alookup e.relpath files = some info0)
    (hout : Database.sizeOutsidePar (orDefault minpar 1) (orInf maxpar) e.size = true)
    (htrig : Database.needsHashTrigger (info0.withPath e.relpath) e.mtime = true) :
    (info0.withPath e.relpath
      ∈ (Database.scan pfiles minscan maxscan minpar maxpar target mtimeOf sizeOf
          files entries).newhashes)
    ∧ ∀ r ∈ (Database.scan pfiles minscan maxscan minpar maxpar target mtimeOf sizeOf
          files entries).newpars, r.pathname ≠ e.relpath :=
  scanGo_existing_outside pfiles (orDefault minpar 1) (orInf maxpar) target mtimeOf sizeOf
    e info0 (Database.walkFilter minscan maxscan entries) files hnodup hmem hlook hout htrig

theorem c3_scan_classification_witness :
    ((⟨"old.bin", none, 7, 10, "t/old.bin", "t"⟩ : Info).withPath "old.bin"
      ∈ (Database.scan [] none none (some 20) none "t" (fun _ => (7 : ℚ)) (fun _ => 10)
          [("old.bin", ⟨"old.bin", none, 7, 10, "t/old.bin", "t"⟩)]
          [⟨"old.bin", 7, 10⟩]).newhashes)
    ∧ ∀ r ∈ (Database.scan [] none none (some 20) none "t" (fun _ => (7 : ℚ)) (fun _ => 10)
          [("old.bin", ⟨"old.bin", none, 7, 10, "t/old.bin", "t"⟩)]
          [⟨"old.bin", 7, 10⟩]).newpars, r.pathname ≠ "old.bin" :=
  c3_scan_classification [] none none (some 20) none "t" (fun _ => (7 : ℚ)) (fun _ => 10)
    [("old.bin", ⟨"old.bin", none, 7, 10, "t/old.bin", "t"⟩)]
    [⟨"old.bin", 7, 10⟩] ⟨"old.bin", 7, 10⟩ ⟨"old.bin", none, 7, 10, "t/old.bin", "t"⟩
    (by decide) (by decide) (by decide) (by decide) (by decide)

lemma mmGet_buildHashes_aux (h : Option String) :
    ∀ (l : List (String × Info)) (m : List (Option String × List Info)),
      mmGet (l.foldl (fun m q => aset q.2.hash (mmGet m q.2.hash ++ [q.2]) m) m) h
        = mmGet m h ++ (l.filter (fun q => q.2.hash = h)).map Prod.snd := by
  intro l
  induction l with
  | nil => intro m; simp
  | cons q rest ih =>
    intro m
    rw [List.foldl_cons, ih]
    by_cases hq : q.2.hash = h
    · subst hq
      rw [List.filter_cons, if_pos (by simp)]
      have hset : mmGet (aset q.2.hash (mmGet m q.2.hash ++ [q.2]) m) q.2.hash
          = mmGet m q.2.hash ++ [q.2] := by
        unfold mmGet
        rw [alookup_aset_self]
        rfl
      rw [hset, List.map_cons, List.append_assoc]
      rfl
    · rw [List.filter_cons, if_neg (by simpa using hq)]
      have hset : mmGet (aset q.2.hash (mmGet m q.2.hash ++ [q.2]) m) h = mmGet m h := by
        unfold mmGet
        rw [alookup_aset_ne hq]
      rw [hset]

lemma mmGet_buildHashes (files : List (String × Info)) (h : Option String) :
    mmGet (Database.buildHashes files) h
      = (files.filter (fun q => q.2.hash = h)).map Prod.snd := by
  unfold Database.buildHashes
  rw [mmGet_buildHashes_aux]
  rfl

lemma filter_split (onDiskP g : (String × Info) → Bool) :
    ∀ l : List (String × Info),
      ∃ S : Multiset Info,
        (((l.filter g).map Prod.snd : List Info) : Multiset Info)
          = S + ↑(((l.filter (fun q => !onDiskP q)).filter g).map Prod.snd)
        ∧ ∀ q ∈ l, onDiskP q = true → g q = true → q.2 ∈ S := by
  intro l
  induction l with
  | nil => exact ⟨0, by simp, by simp⟩
  | cons q rest ih =>
    obtain ⟨S, hS, hmem⟩ := ih
    by_cases hf : onDiskP q = true
    · have hC : (q :: rest).filter (fun q => !onDiskP q)
          = rest.filter (fun q => !onDiskP q) := by
        rw [List.filter_cons, if_neg (by simp [hf])]
      by_cases hg : g q = true
      · have hA : (q :: rest).filter g = q :: rest.filter g := by
          rw [List.filter_cons, if_pos hg]
        refine ⟨q.2 ::ₘ S, ?_, ?_⟩
        · rw [hA, hC, List.map_cons, ← Multiset.cons_coe, hS, Multiset.cons_add]
        · intro r hr hfr hgr
          rcases List.mem_cons.mp hr with heq | hr'
          · subst heq
            exact Multiset.mem_cons_self _ _
          · exact Multiset.mem_cons_of_mem (hmem r hr' hfr hgr)
      · have hA : (q :: rest).filter g = rest.filter g := by
          rw [List.filter_cons, if_neg hg]
        refine ⟨S, ?_, ?_⟩
        · rw [hA, hC]
          exact hS
        · intro r hr hfr hgr
          rcases List.mem_cons.mp hr with heq | hr'
          · subst heq
            exact absurd hgr hg
          · exact hmem r hr' hfr hgr
    · have hC : (q :: rest).filter (fun q => !onDiskP q)
          = q :: rest.filter (fun q => !onDiskP q) := by
        rw [List.filter_cons, if_pos (by revert hf; cases onDiskP q <;> simp)]
      by_cases hg : g q = true
      · have hA : (q :: rest).filter g = q :: rest.filter g := by
          rw [List.filter_cons, if_pos hg]
        have hB : (q :: rest.filter (fun q => !onDiskP q)).filter g
            = q :: (rest.filter (fun q => !onDiskP q)).filter g := by
          rw [List.filter_cons, if_pos hg]
        refine ⟨S, ?_, ?_⟩
        · rw [hA, hC, hB, List.map_cons, List.map_cons, ← Multiset.cons_coe,
            ← Multiset.cons_coe, hS, Multiset.add_cons]
        · intro r hr hfr hgr
          rcases List.mem_cons.mp hr with heq | hr'
          · subst heq
            exact absurd hfr hf
          · exact hmem r hr' hfr hgr
      · have hA : (q :: rest).filter g = rest.filter g := by
          rw [List.filter_cons, if_neg hg]
        have hB : (q :: rest.filter (fun q => !onDiskP q)).filter g
            = (rest.filter (fun q => !onDiskP q)).filter g := by
          rw [List.filter_cons, if_neg hg]
        refine ⟨S, ?_, ?_⟩
        · rw [hA, hC, hB]
          exact hS
        · intro r hr hfr hgr
          rcases List.mem_cons.mp hr with heq | hr'
          · subst heq
            exact absurd hfr hf
          · exact hmem r hr' hfr hgr

lemma clean_alookup_ne {h : Option String} {H : String} (hne : h ≠ some H)
    (pfiles : Pfiles) : alookup H (HexBase.clean pfiles h).1 = alookup H pfiles := by
  cases h with
  | none => rfl
  | some g =>
    have hg : g ≠ H := fun hc => hne (by rw [hc])
    simp only [HexBase.clean]
    cases hl : alookup g pfiles with
    | none => rfl
    | some arts =>
      dsimp only
      split_ifs with ha
      · rfl
      · exact alookup_aerase_ne hg pfiles

lemma cleanerGo_calls_mono (onDisk : String → Bool) (target : String) :
    ∀ (pending : List (String × Info)) (st : Database.CleanerResult) (x : Option String),
      x ∈ st.cleanCalls → x ∈ (Database.cleanerGo onDisk target pending st).cleanCalls := by
  intro pending
  induction pending with
  | nil => intro st x hx; exact hx
  | cons q rest ih =>
    obtain ⟨p, i⟩ := q
    intro st x hx
    simp only [Database.cleanerGo]
    split_ifs with h1 h2
    · exact ih st x hx
    · exact ih _ x (List.mem_append_left _ hx)
    · exact ih _ x hx

lemma cleanerGo_fires (onDisk : String → Bool) (target : String) (H : String) :
    ∀ (pending : List (String × Info)) (st : Database.CleanerResult),
      ((mmGet st.hashes (some H) : List Info) : Multiset Info)
          = ↑((pending.filter (fun q => q.2.hash = some H)).map Prod.snd) →
      (∀ q ∈ pending, q.2.hash = some H → onDisk (joinPath target q.1) = false) →
      (pending.filter (fun q => q.2.hash = some H)) ≠ [] →
      some H ∈ (Database.cleanerGo onDisk target pending st).cleanCalls := by
  intro pending
  induction pending with
  | nil => intro st _ _ hne; exact absurd rfl hne
  | cons q rest ih =>
    obtain ⟨p, i⟩ := q
    intro st hinv hall hne
    by_cases hd : onDisk (joinPath target p) = true
    · have hih : i.hash ≠ some H := by
        intro hcontra
        have h2 := hall (p, i) (List.mem_cons_self _ _) hcontra
        rw [h2] at hd
        exact Bool.false_ne_true hd
      simp only [Database.cleanerGo]
      rw [if_pos hd]
      rw [List.filter_cons, if_neg (by simpa using hih)] at hinv hne
      exact ih st hinv (fun q hq => hall q (List.mem_cons_of_mem _ hq)) hne
    · have hdf : onDisk (joinPath target p) = false := by
        revert hd; cases onDisk (joinPath target p) <;> simp
      simp only [Database.cleanerGo]
      rw [if_neg (by rw [hdf]; exact Bool.false_ne_true)]
      by_cases hih : i.hash = some H
      · rw [List.filter_cons, if_pos (by simpa using hih), List.map_cons] at hinv
        have hkey : mmGet (aset i.hash ((mmGet st.hashes i.hash).erase i) st.hashes) (some H)
            = (mmGet st.hashes i.hash).erase i := by
          rw [hih]
          unfold mmGet
          rw [alookup_aset_self]
          rfl
        have hco : ((mmGet (aset i.hash ((mmGet st.hashes i.hash).erase i) st.hashes)
              (some H) : List Info) : Multiset Info)
            = ↑((rest.filter (fun q => q.2.hash = some H)).map Prod.snd) := by
          rw [hkey]
          calc (((mmGet st.hashes i.hash).erase i : List Info) : Multiset Info)
              = ((mmGet st.hashes i.hash : List Info) : Multiset Info).erase i :=
                (Multiset.coe_erase _ _).symm
            _ = ((mmGet st.hashes (some H) : List Info) : Multiset Info).erase i := by
                rw [hih]
            _ = (↑((p, i).2 :: (rest.filter (fun q => q.2.hash = some H)).map Prod.snd) :
                  Multiset Info).erase i := by rw [hinv]
            _ = (i ::ₘ ↑((rest.filter (fun q => q.2.hash = some H)).map Prod.snd) :
                  Multiset Info).erase i := by rw [Multiset.cons_coe]
            _ = ↑((rest.filter (fun q => q.2.hash = some H)).map Prod.snd) :=
                Multiset.erase_cons_head _ _
        by_cases hfire :
            (mmGet (aset i.hash ((mmGet st.hashes i.hash).erase i) st.hashes) i.hash).isEmpty
              = true
        · rw [if_pos hfire]
          apply cleanerGo_calls_mono
          exact List.mem_append_right _ (by rw [← hih]; exact List.mem_singleton_self _)
        · rw [if_neg hfire]
          apply ih
          · exact hco
          · exact fun q hq => hall q (List.mem_cons_of_mem _ hq)
          · intro hnil
            apply hfire
            have hlist : mmGet (aset i.hash ((mmGet st.hashes i.hash).erase i) st.hashes)
                (some H) = [] := by
              rw [← Multiset.coe_eq_zero, hco, hnil]
              rfl
            have houter : mmGet (aset i.hash ((mmGet st.hashes i.hash).erase i) st.hashes)
                  i.hash
                = mmGet (aset i.hash ((mmGet st.hashes i.hash).erase i) st.hashes)
                  (some H) := by
              rw [hih]
            rw [List.isEmpty_iff, houter]
            exact hlist
      · rw [List.filter_cons, if_neg (by simpa using hih)] at hinv hne
        have hkey : mmGet (aset i.hash ((mmGet st.hashes i.hash).erase i) st.hashes) (some H)
            = mmGet st.hashes (some H) := by
          unfold mmGet
          rw [alookup_aset_ne hih]
        split_ifs with hfire
        · exact ih _ (by rw [hkey]; exact hinv)
            (fun q hq => hall q (List.mem_cons_of_mem _ hq)) hne
        · exact ih _ (by rw [hkey]; exact hinv)
            (fun q hq => hall q (List.mem_cons_of_mem _ hq)) hne

lemma cleanerGo_conservative (onDisk : String → Bool) (target : String) (H : String) :
    ∀ (pending : List (String × Info)) (st : Database.CleanerResult) (S : Multiset Info),
      ((mmGet st.hashes (some H) : List Info) : Multiset Info)
          = S + ↑(((pending.filter (fun q => !onDisk (joinPath target q.1))).filter
              (fun q => q.2.hash = some H)).map Prod.snd) →
      S ≠ 0 →
      some H ∉ st.cleanCalls →
      some H ∉ (Database.cleanerGo onDisk target pending st).cleanCalls
      ∧ alookup H (Database.cleanerGo onDisk target pending st).pfiles
          = alookup H st.pfiles := by
  intro pending
  induction pending with
  | nil => intro st S hinv hS hcalls; exact ⟨hcalls, rfl⟩
  | cons q rest ih =>
    obtain ⟨p, i⟩ := q
    intro st S hinv hS hcalls
    by_cases hd : onDisk (joinPath target p) = true
    · simp only [Database.cleanerGo]
      rw [if_pos hd]
      rw [List.filter_cons, if_neg (by simp [hd])] at hinv
      exact ih st S hinv hS hcalls
    · have hdf : onDisk (joinPath target p) = false := by
        revert hd; cases onDisk (joinPath target p) <;> simp
      simp only [Database.cleanerGo]
      rw [if_neg (by rw [hdf]; exact Bool.false_ne_true)]
      rw [List.filter_cons, if_pos (by simp [hdf])] at hinv
      by_cases hih : i.hash = some H
      · rw [List.filter_cons, if_pos (by simpa using hih), List.map_cons] at hinv
        have hkey : mmGet (aset i.hash ((mmGet st.hashes i.hash).erase i) st.hashes) (some H)
            = (mmGet st.hashes i.hash).erase i := by
          rw [hih]
          unfold mmGet
          rw [alookup_aset_self]
          rfl
        have hco : ((mmGet (aset i.hash ((mmGet st.hashes i.hash).erase i) st.hashes)
              (some H) : List Info) : Multiset Info)
            = S + ↑(((rest.filter (fun q => !onDisk (joinPath target q.1))).filter
                (fun q => q.2.hash = some H)).map Prod.snd) := by
          rw [hkey]
          calc (((mmGet st.hashes i.hash).erase i : List Info) : Multiset Info)
              = ((mmGet st.hashes i.hash : List Info) : Multiset Info).erase i :=
                (Multiset.coe_erase _ _).symm
            _ = ((mmGet st.hashes (some H) : List Info) : Multiset Info).erase i := by
                rw [hih]
            _ = (S + ↑((p, i).2 :: ((rest.filter (fun q => !onDisk (joinPath target q.1))).filter
                  (fun q => q.2.hash = some H)).map Prod.snd) : Multiset Info).erase i := by
                rw [hinv]
            _ = (S + (i ::ₘ ↑(((rest.filter (fun q => !onDisk (joinPath target q.1))).filter
                  (fun q => q.2.hash = some H)).map Prod.snd)) : Multiset Info).erase i := by
                rw [Multiset.cons_coe]
            _ = S + ↑(((rest.filter (fun q => !onDisk (joinPath target q.1))).filter
                  (fun q => q.2.hash = some H)).map Prod.snd) := by
                rw [Multiset.erase_add_right_pos S (Multiset.mem_cons_self i _),
                  Multiset.erase_cons_head]
        have hne0 : mmGet (aset i.hash ((mmGet st.hashes i.hash).erase i) st.hashes)
            (some H) ≠ [] := by
          intro hnil
          apply hS
          have h0 : S + ↑(((rest.filter (fun q => !onDisk (joinPath target q.1))).filter
              (fun q => q.2.hash = some H)).map Prod.snd) = (0 : Multiset Info) := by
            rw [← hco, hnil]
            rfl
          have hle : S ≤ (0 : Multiset Info) := h0 ▸ Multiset.le_add_right S _
          exact Multiset.le_zero.mp hle
        have hfire : ¬((mmGet (aset i.hash ((mmGet st.hashes i.hash).erase i) st.hashes)
            i.hash).isEmpty = true) := by
          have houter : mmGet (aset i.hash ((mmGet st.hashes i.hash).erase i) st.hashes)
                i.hash
              = mmGet (aset i.hash ((mmGet st.hashes i.hash).erase i) st.hashes)
                (some H) := by
            rw [hih]
          rw [List.isEmpty_iff, houter]
          exact hne0
        rw [if_neg hfire]
        exact ih _ S (by rw [hco]) hS hcalls
      · rw [List.filter_cons, if_neg (by simpa using hih)] at hinv
        have hkey : mmGet (aset i.hash ((mmGet st.hashes i.hash).erase i) st.hashes) (some H)
            = mmGet st.hashes (some H) := by
          unfold mmGet
          rw [alookup_aset_ne hih]
        split_ifs with hfire
        · have hcalls' : some H ∉ st.cleanCalls ++ [i.hash] := by
            intro hx
            rcases List.mem_append.mp hx with hx | hx
            · exact hcalls hx
            · rw [List.mem_singleton] at hx
              exact hih hx.symm
          have IH := ih ⟨aerase p st.files, (HexBase.clean st.pfiles i.hash).1,
              aset i.hash ((mmGet st.hashes i.hash).erase i) st.hashes,
              st.cleanCalls ++ [i.hash], st.deleted + (HexBase.clean st.pfiles i.hash).2⟩ S
            (by dsimp only; rw [hkey]; exact hinv) hS hcalls'
          exact ⟨IH.1, IH.2.trans (clean_alookup_ne hih st.pfiles)⟩
        · exact ih _ S (by rw [hkey]; exact hinv) hS hcalls

/-- C4 counterexample: the cleaner has no second phase over the vault.  On
an index with no records and one vault entry, the cleaner leaves the entry
in place and never invokes `Parity Vault clean`, so a vault entry remains
whose digest is referenced by no record. -/
theorem c4_counterexample :
    (Database.cleaner (fun _ => false) "t" []
        [("d0123456789abcdef", [("D0/123.0.par2", "ph")])]).pfiles
      = [("d0123456789abcdef", [("D0/123.0.par2", "ph")])]
    ∧ (Database.cleaner (fun _ => false) "t" []
        [("d0123456789abcdef", [("D0/123.0.par2", "ph")])]).files = []
    ∧ (Database.cleaner (fun _ => false) "t" []
        [("d0123456789abcdef", [("D0/123.0.par2", "ph")])]).cleanCalls = [] :=
  ⟨rfl, rfl, rfl⟩

/-- C4 (amended): the cleaner has a single phase.  `Parity Vault
clean(digest)` is invoked for a digest exactly while dropping the last
index record that references it: whenever some record references digest
`H` and every record referencing `H` points at a file that no longer
exists, the run invokes `clean(H)`.  Vault entries referenced by no record
at the start of the run are not touched (no belt-and-braces second
phase). -/
theorem c4_cleaner_drops_last_reference (onDisk : String → Bool) (target : String)
    (files : List (String × Info)) (pfiles : Pfiles) (p : String) (i : Info) (H : String)
    (hmem : (p, i) ∈ files)
    (hhash : i.hash = some H)
    (hall : ∀ q ∈ files, q.2.hash = some H → onDisk (joinPath target q.1) = false) :
    some H ∈ (Database.cleaner onDisk target files pfiles).cleanCalls := by
  apply cleanerGo_fires onDisk target H files
  · rw [mmGet_buildHashes]
  · exact hall
  · intro hnil
    have hmemf : (p, i) ∈ files.filter (fun q => q.2.hash = some H) :=
      List.mem_filter.mpr ⟨hmem, by simpa using hhash⟩
    rw [hnil] at hmemf
    simp at hmemf

theorem c4_cleaner_drops_last_reference_witness :
    some "h0123456789abcdef"
      ∈ (Database.cleaner (fun _ => false) "t"
          [("gone.bin", ⟨"gone.bin", some "h0123456789abcdef", 7, 10, "t/gone.bin", "t"⟩)]
          [("h0123456789abcdef", [("H0/123.0.par2", "ph")])]).cleanCalls :=
  c4_cleaner_drops_last_reference (fun _ => false) "t"
    [("gone.bin", ⟨"gone.bin", some "h0123456789abcdef", 7, 10, "t/gone.bin", "t"⟩)]
    [("h0123456789abcdef", [("H0/123.0.par2", "ph")])]
    "gone.bin" ⟨"gone.bin", some "h0123456789abcdef", 7, 10, "t/gone.bin", "t"⟩
    "h0123456789abcdef" (by simp) (by decide) (by decide)

/-- C8: the cleaner is conservative.  If some index record whose file still
exists references digest `H`, the run never invokes `Parity Vault
clean(H)` and the vault entry for `H` is untouched: `clean` never removes
a vault entry that is still referenced by a record. -/
theorem c8_cleaner_conservative (onDisk : String → Bool) (target : String)
    (files : List (String × Info)) (pfiles : Pfiles) (p : String) (i : Info) (H : String)
    (hmem : (p, i) ∈ files)
    (hsurv : onDisk (joinPath target p) = true)
    (hhash : i.hash = some H) :
    some H ∉ (Database.cleaner onDisk target files pfiles).cleanCalls
    ∧ alookup H (Database.cleaner onDisk target files pfiles).pfiles = alookup H pfiles := by
  obtain ⟨S, hSsplit, hSmem⟩ := filter_split (fun q => onDisk (joinPath target q.1))
    (fun q => q.2.hash = some H) files
  have hiS : i ∈ S := hSmem (p, i) hmem hsurv (by simpa using hhash)
  apply cleanerGo_conservative onDisk target H files _ S
  · rw [mmGet_buildHashes]
    exact hSsplit
  · intro h0
    rw [h0] at hiS
    exact Multiset.not_mem_zero _ hiS
  · simp

theorem c8_cleaner_conservative_witness :
    some "h0123456789abcdef"
      ∉ (Database.cleaner (fun _ => true) "t"
          [("kept.bin", ⟨"kept.bin", some "h0123456789abcdef", 7, 10, "t/kept.bin", "t"⟩)]
          [("h0123456789abcdef", [("H0/123.0.par2", "ph")])]).cleanCalls
    ∧ alookup "h0123456789abcdef"
        (Database.cleaner (fun _ => true) "t"
          [("kept.bin", ⟨"kept.bin", some "h0123456789abcdef", 7, 10, "t/kept.bin", "t"⟩)]
          [("h0123456789abcdef", [("H0/123.0.par2", "ph")])]).pfiles
      = alookup "h0123456789abcdef"
          [("h0123456789abcdef", [("H0/123.0.par2", "ph")])] :=
  c8_cleaner_conservative (fun _ => true) "t"
    [("kept.bin", ⟨"kept.bin", some "h0123456789abcdef", 7, 10, "t/kept.bin", "t"⟩)]
    [("h0123456789abcdef", [("H0/123.0.par2", "ph")])]
    "kept.bin" ⟨"kept.bin", some "h0123456789abcdef", 7, 10, "t/kept.bin", "t"⟩
    "h0123456789abcdef" (by simp) rfl rfl

lemma genParsGo_cons (sequential : Bool) (results : List GenStatus) (q : ParRecord)
    (rest : List ParRecord) :
    Database.genParsGo sequential results (q :: rest)
      = ⟨sequential, (Database.generate sequential q).1, (Database.generate sequential q).2⟩ ::
        Database.genParsGo
          (if sequential = false
              ∧ Database.lastN 5 (results ++ [(Database.generate sequential q).1])
                = List.replicate 5 GenStatus.peq
           then true else sequential)
          (if (results ++ [(Database.generate sequential q).1]).length > 5
           then (results ++ [(Database.generate sequential q).1]).drop 1
           else results ++ [(Database.generate sequential q).1]) rest := rfl

lemma generate_true_ne_peq (q : ParRecord) :
    (Database.generate true q).1 ≠ GenStatus.peq := by
  unfold Database.generate
  split_ifs <;> simp_all

lemma generate_true_started (q : ParRecord) :
    (Database.generate true q).2 = !q.inVault := by
  unfold Database.generate
  cases hq : q.inVault
  · rw [if_pos rfl, if_neg Bool.false_ne_true]
    split_ifs <;> rfl
  · rw [if_pos rfl, if_pos rfl]
    rfl

lemma genParsGo_seq_all :
    ∀ (records : List ParRecord) (results : List GenStatus) (k : ℕ) (t : GenTrace)
      (r : ParRecord),
      (Database.genParsGo true results records).get? k = some t →
      records.get? k = some r →
      t.mode = true ∧ t.started = !r.inVault := by
  intro records
  induction records with
  | nil => intro results k t r ht _; simp [Database.genParsGo] at ht
  | cons q rest ih =>
    intro results k t r ht hr
    rw [genParsGo_cons] at ht
    have hflag : (if true = false
        ∧ Database.lastN 5 (results ++ [(Database.generate true q).1])
          = List.replicate 5 GenStatus.peq then true else true) = true := by
      split_ifs <;> rfl
    rw [hflag] at ht
    cases k with
    | zero =>
      simp only [List.get?_cons_zero, Option.some.injEq] at ht hr
      subst ht
      subst hr
      exact ⟨rfl, generate_true_started _⟩
    | succ n =>
      simp only [List.get?_cons_succ] at ht hr
      exact ih _ n t r ht hr

lemma lastN_zero (l : List GenStatus) : Database.lastN 0 l = [] := by
  unfold Database.lastN
  rw [Nat.sub_zero, List.drop_length]

lemma lastN_length_le (k : ℕ) (l : List GenStatus)
    (h : Database.lastN k l = List.replicate k GenStatus.peq) : k ≤ l.length := by
  have hl := congrArg List.length h
  simp [Database.lastN] at hl
  omega

lemma lastN_append_one (k : ℕ) (l : List GenStatus) (x : GenStatus) (h : k ≤ l.length) :
    Database.lastN (k + 1) (l ++ [x]) = Database.lastN k l ++ [x] := by
  unfold Database.lastN
  have hlen : (l ++ [x]).length - (k + 1) = l.length - k := by
    simp
  rw [hlen, List.drop_append_of_le_length (by omega)]

lemma lastN_drop_one (k : ℕ) (l : List GenStatus) (h : k + 1 ≤ l.length) :
    Database.lastN k (l.drop 1) = Database.lastN k l := by
  unfold Database.lastN
  rw [List.drop_drop, List.length_drop]
  congr 1
  omega

lemma genParsGo_degrade :
    ∀ (records : List ParRecord) (sequential : Bool) (results : List GenStatus) (i : ℕ),
      results.length ≤ 5 →
      (∀ d : ℕ, d < 5 → d ≤ i →
        ((Database.genParsGo sequential results records).get? (i - d)).map GenTrace.status
          = some GenStatus.peq) →
      Database.lastN (4 - i) results = List.replicate (4 - i) GenStatus.peq →
      ∀ j, i < j → ∀ t r,
        (Database.genParsGo sequential results records).get? j = some t →
        records.get? j = some r →
        t.mode = true ∧ t.started = !r.inVault := by
  intro records
  induction records with
  | nil => intro seq res i _ _ _ j _ t r ht _; simp [Database.genParsGo] at ht
  | cons q rest ih =>
    intro seq res i hlen hpeq hpre j hij t r ht hr
    cases i with
    | zero =>
      have hs0 : (Database.generate seq q).1 = GenStatus.peq := by
        have h0 := hpeq 0 (by omega) (by omega)
        rw [genParsGo_cons] at h0
        simpa using h0
      have hseq : seq = false := by
        by_contra hne
        have hseqt : seq = true := by
          cases hv : seq
          · exact absurd hv hne
          · rfl
        rw [hseqt] at hs0
        exact generate_true_ne_peq q hs0
      subst hseq
      have hres4 : Database.lastN 4 res = List.replicate 4 GenStatus.peq := by
        simpa using hpre
      have hlen4 : 4 ≤ res.length := lastN_length_le 4 res hres4
      have htrig : Database.lastN 5 (res ++ [(Database.generate false q).1])
          = List.replicate 5 GenStatus.peq := by
        rw [hs0]
        have h5 : (5 : ℕ) = 4 + 1 := rfl
        rw [h5, lastN_append_one 4 res GenStatus.peq hlen4, hres4, ← List.replicate_succ']
      cases j with
      | zero => exact absurd hij (lt_irrefl 0)
      | succ m =>
        rw [genParsGo_cons] at ht
        rw [List.get?_cons_succ] at ht
        rw [List.get?_cons_succ] at hr
        have hflag : (if false = false
            ∧ Database.lastN 5 (res ++ [(Database.generate false q).1])
              = List.replicate 5 GenStatus.peq then true else false) = true := by
          rw [if_pos ⟨rfl, htrig⟩]
        rw [hflag] at ht
        exact genParsGo_seq_all rest _ m t r ht hr
    | succ n =>
      cases j with
      | zero => exact absurd hij (by omega)
      | succ m =>
        rw [genParsGo_cons] at ht
        rw [List.get?_cons_succ] at ht
        rw [List.get?_cons_succ] at hr
        have hlen2 : (if (res ++ [(Database.generate seq q).1]).length > 5
            then (res ++ [(Database.generate seq q).1]).drop 1
            else res ++ [(Database.generate seq q).1]).length ≤ 5 := by
          split_ifs with hgt
          · simp only [List.length_drop]
            simp at hgt ⊢
            omega
          · simp at hgt ⊢
            omega
        have hpeq2 : ∀ d : ℕ, d < 5 → d ≤ n →
            ((Database.genParsGo
              (if seq = false
                  ∧ Database.lastN 5 (res ++ [(Database.generate seq q).1])
                    = List.replicate 5 GenStatus.peq then true else seq)
              (if (res ++ [(Database.generate seq q).1]).length > 5
                then (res ++ [(Database.generate seq q).1]).drop 1
                else res ++ [(Database.generate seq q).1]) rest).get? (n - d)).map
              GenTrace.status = some GenStatus.peq := by
          intro d hd hdn
          have h1 := hpeq d hd (by omega)
          rw [genParsGo_cons] at h1
          have hidx : n + 1 - d = (n - d) + 1 := by omega
          rw [hidx] at h1
          simpa using h1
        have hpre2 : Database.lastN (4 - n)
            (if (res ++ [(Database.generate seq q).1]).length > 5
              then (res ++ [(Database.generate seq q).1]).drop 1
              else res ++ [(Database.generate seq q).1])
            = List.replicate (4 - n) GenStatus.peq := by
          by_cases hn4 : 4 ≤ n
          · have h0 : 4 - n = 0 := by omega
            rw [h0]
            exact lastN_zero _
          · have hs0 : (Database.generate seq q).1 = GenStatus.peq := by
              have h0 := hpeq (n + 1) (by omega) (by omega)
              rw [genParsGo_cons] at h0
              have hidx : n + 1 - (n + 1) = 0 := by omega
              rw [hidx] at h0
              simpa using h0
            have hpre3 : Database.lastN (3 - n) res
                = List.replicate (3 - n) GenStatus.peq := by
              have hk : 4 - (n + 1) = 3 - n := by omega
              rw [hk] at hpre
              exact hpre
            have hlen3 : 3 - n ≤ res.length := lastN_length_le (3 - n) res hpre3
            have happ : Database.lastN (4 - n) (res ++ [(Database.generate seq q).1])
                = List.replicate (4 - n) GenStatus.peq := by
              have hk : 4 - n = (3 - n) + 1 := by omega
              rw [hk, hs0, lastN_append_one (3 - n) res GenStatus.peq hlen3, hpre3,
                ← List.replicate_succ']
            split_ifs with hgt
            · rw [lastN_drop_one (4 - n) _ (by simp at hgt ⊢; omega)]
              exact happ
            · exact happ
        exact ih _ (if (res ++ [(Database.generate seq q).1]).length > 5
            then (res ++ [(Database.generate seq q).1]).drop 1
            else res ++ [(Database.generate seq q).1]) n hlen2 hpeq2 hpre2 m (by omega) t r
          ht hr

/-- C9: in the parity pipeline, once five consecutive records (ending at
position `i`) all produce `PARALLEL_EARLY_QUIT` — something only parallel
mode can produce — every later record of the run is processed in
sequential mode: the file is hashed and the vault consulted before any
parity process is started (a par2 child is started exactly when the
digest is not in the vault), and the pipeline never returns to parallel
mode. -/
theorem c9_auto_degrade (sequential : Bool) (records : List ParRecord) (i : ℕ)
    (h4 : 4 ≤ i)
    (hpeq : ∀ d : ℕ, d < 5 →
      ((Database.gen_pars sequential records).get? (i - d)).map GenTrace.status
        = some GenStatus.peq) :
    ∀ j, i < j → ∀ t r,
      (Database.gen_pars sequential records).get? j = some t →
      records.get? j = some r →
      t.mode = true ∧ t.started = !r.inVault := by
  intro j hij t r ht hr
  have h0 : (4 : ℕ) - i = 0 := by omega
  exact genParsGo_degrade records sequential [] i (by simp)
    (fun d hd _ => hpeq d hd) (by rw [h0]; exact lastN_zero []) j hij t r ht hr

theorem c9_auto_degrade_witness :
    (⟨true, GenStatus.failed, false⟩ : GenTrace).mode = true
    ∧ (⟨true, GenStatus.failed, false⟩ : GenTrace).started
        = !(⟨true, 0, true⟩ : ParRecord).inVault :=
  c9_auto_degrade false
    (List.replicate 5 ⟨true, 0, true⟩ ++ [⟨true, 0, true⟩]) 4 (by omega)
    (by decide) 5 (by omega) ⟨true, GenStatus.failed, false⟩ ⟨true, 0, true⟩
    (by decide) (by decide)

end ParDatabase
